import Mathlib

/-!
Verification of the BasicTag library (BasicTag.c, v1.3.x source).

This file shallowly embeds the library's data model, registry and
read/write engine in Lean and proves properties of the embedding.

Modelling conventions:
* Machine integers are `Int`/`Nat`; payloads are copied by assignment
  exactly as the C does, so no wrap-around arithmetic arises.
* `float`/`double` cells are carried as raw bit patterns (`Nat`); the only
  operation the C performs on them is assignment and IEEE-754 equality,
  which is a pure function of the bit patterns and is embedded as such.
* Pointers become `Option` (`none` = NULL) of identifiers: tag pointers are
  `Nat` ids into a `store`, caller memory addresses are `Nat` ids into `mem`.
* `malloc` is assumed to succeed (allocation failure aborts creation in the
  C and is out of scope for the claims considered here); freshly malloc'd
  byte buffers are modelled as zero-filled, which is unobservable because
  their `written_length` is 0 before anything is written to them.
* Function-pointer fields (`compareFunc`, `validateWrite`) are modelled as
  optional pure Lean functions; `onChange` is modelled as a presence flag
  whose invocation has no modelled effect (the spec forbids callbacks from
  mutating the registry).
* One line of the C, `memcpy(target_buf, reference_buf, length)` in
  `_copy_buffer_value`, copies raw `BufferValue` struct bytes and is
  layout-dependent (see the comment at `_copy_buffer_value`).  Its effect
  on the target struct is kept abstract as a parameter (`UBModel`), and the
  theorems that touch it are quantified over every resolution of it.
-/

namespace BasicTag

/-- The 13 implemented variants of the Sparkplug data type enumeration
(codes 1-15 and 17 in the C header). -/
inductive SparkplugDataType where
  | spInt8 | spInt16 | spInt32 | spInt64
  | spUInt8 | spUInt16 | spUInt32 | spUInt64
  | spFloat | spDouble | spBoolean | spString
  | spDateTime | spText | spUUID | spBytes
deriving DecidableEq, Repr

open SparkplugDataType

/-- `BufferValue`: owned byte buffer with allocated and written lengths.
`buffer = none` models a NULL buffer pointer. -/
structure BufferValue where
  buffer : Option (List Nat)
  written_length : Nat
  allocated_length : Nat
deriving DecidableEq, Repr

instance : Inhabited BufferValue := ⟨⟨none, 0, 0⟩⟩

/-- The `Value` union.  Exactly one member is active, selected by an
external `SparkplugDataType` discriminant.  `vNone` models the
zero-initialised / not-yet-set union (`{0}` in the C).  A `char*` member is
modelled by the byte list it points to (`none` = NULL); a `BufferValue*`
member by the struct it points to (`none` = NULL). -/
inductive Value where
  | vInt8 (v : Int) | vInt16 (v : Int) | vInt32 (v : Int) | vInt64 (v : Int)
  | vUInt8 (v : Nat) | vUInt16 (v : Nat) | vUInt32 (v : Nat) | vUInt64 (v : Nat)
  | vFloat (bits : Nat) | vDouble (bits : Nat)
  | vBool (b : Bool)
  | vString (s : Option (List Nat))
  | vBytes (b : Option BufferValue)
  | vNone
deriving DecidableEq, Repr

namespace Value

/- Union member accessors.  Reading a member other than the active one
reinterprets bits in C; the claims never do that, and the accessors return
the zero value of the member in that (unreached) case, matching the
zero-initialised union `{0}`. -/

def int8Val : Value → Int | .vInt8 v => v | _ => 0
def int16Val : Value → Int | .vInt16 v => v | _ => 0
def int32Val : Value → Int | .vInt32 v => v | _ => 0
def int64Val : Value → Int | .vInt64 v => v | _ => 0
def uint8Val : Value → Nat | .vUInt8 v => v | _ => 0
def uint16Val : Value → Nat | .vUInt16 v => v | _ => 0
def uint32Val : Value → Nat | .vUInt32 v => v | _ => 0
def uint64Val : Value → Nat | .vUInt64 v => v | _ => 0
def floatBits : Value → Nat | .vFloat v => v | _ => 0
def doubleBits : Value → Nat | .vDouble v => v | _ => 0
def boolVal : Value → Bool | .vBool b => b | _ => false
def stringVal : Value → Option (List Nat) | .vString s => s | _ => none
def bytesVal : Value → Option BufferValue | .vBytes b => b | _ => none

end Value

/-- `BasicValue`: timestamped, nullable, type-discriminated value. -/
structure BasicValue where
  timestamp : Nat
  datatype : SparkplugDataType
  value : Value
  isNull : Bool
deriving DecidableEq, Repr

/-- `strlen` on a modelled C string: number of bytes before the first NUL.
(A missing terminator would run off the allocation in C; the model stops at
the end of the list.) -/
def cstrlen (l : List Nat) : Nat := (l.takeWhile (fun b => b != 0)).length

/-- The character sequence of a modelled C string up to its terminator;
`strcmp a b == 0` iff the two strings have equal `cstr`. -/
def cstr (l : List Nat) : List Nat := l.takeWhile (fun b => b != 0)

/-- Byte `i` of a `BufferValue`'s data array (0 for an out-of-range or NULL
read, which the C never performs on well-formed buffers). -/
def BufferValue.byteAt (b : BufferValue) (i : Nat) : Nat := (b.buffer.getD []).getD i 0

/-- IEEE-754 NaN test on a 32-bit pattern: exponent all ones, mantissa nonzero. -/
def f32IsNaN (b : Nat) : Bool := (b / 2 ^ 23) % 2 ^ 8 == 255 && b % 2 ^ 23 != 0

/-- IEEE-754 `==` on two 32-bit float patterns: false on NaN, +0 equals -0,
otherwise bit equality (distinct non-NaN patterns denote distinct values). -/
def f32Eq (a b : Nat) : Bool :=
  if f32IsNaN a || f32IsNaN b then false
  else if a % 2 ^ 31 == 0 && b % 2 ^ 31 == 0 then true
  else a == b

/-- IEEE-754 NaN test on a 64-bit pattern. -/
def f64IsNaN (b : Nat) : Bool := (b / 2 ^ 52) % 2 ^ 11 == 2047 && b % 2 ^ 52 != 0

/-- IEEE-754 `==` on two 64-bit double patterns. -/
def f64Eq (a b : Nat) : Bool :=
  if f64IsNaN a || f64IsNaN b then false
  else if a % 2 ^ 63 == 0 && b % 2 ^ 63 == 0 then true
  else a == b

/-- The `spBytes` arm of `DefaultCompareFn` (v1.3.2): changed when the
written lengths differ or some written byte differs. -/
def bytesChanged (cb nb : BufferValue) : Bool :=
  cb.written_length != nb.written_length ||
    (List.range cb.written_length).any (fun i => cb.byteAt i != nb.byteAt i)

/-- `DefaultCompareFn`: per-type inequality; returns true when the value is
to be considered changed.  Dispatches on `currentValue->datatype` exactly as
the C does.  The C warns the arguments must be properly set and non-NULL;
accessor defaults cover the (unreached) mismatched cases. -/
def DefaultCompareFn (currentValue newValue : BasicValue) : Bool :=
  match currentValue.datatype with
  | spInt8 => currentValue.value.int8Val != newValue.value.int8Val
  | spInt16 => currentValue.value.int16Val != newValue.value.int16Val
  | spInt32 => currentValue.value.int32Val != newValue.value.int32Val
  | spInt64 => currentValue.value.int64Val != newValue.value.int64Val
  | spUInt8 => currentValue.value.uint8Val != newValue.value.uint8Val
  | spUInt16 => currentValue.value.uint16Val != newValue.value.uint16Val
  | spUInt32 => currentValue.value.uint32Val != newValue.value.uint32Val
  | spDateTime => currentValue.value.uint64Val != newValue.value.uint64Val
  | spUInt64 => currentValue.value.uint64Val != newValue.value.uint64Val
  | spFloat => !(f32Eq currentValue.value.floatBits newValue.value.floatBits)
  | spDouble => !(f64Eq currentValue.value.doubleBits newValue.value.doubleBits)
  | spBoolean => currentValue.value.boolVal != newValue.value.boolVal
  | spText => decide (cstr (currentValue.value.stringVal.getD []) ≠ cstr (newValue.value.stringVal.getD []))
  | spUUID => decide (cstr (currentValue.value.stringVal.getD []) ≠ cstr (newValue.value.stringVal.getD []))
  | spString => decide (cstr (currentValue.value.stringVal.getD []) ≠ cstr (newValue.value.stringVal.getD []))
  | spBytes => bytesChanged (currentValue.value.bytesVal.getD default) (newValue.value.bytesVal.getD default)

/-! ## Undefined-behaviour resolution for `_copy_buffer_value`

The C line `memcpy(target_buf, reference_buf, length)` copies `length` raw
bytes of the source `BufferValue` struct over the target struct (not the
byte arrays they own).  Its observable effect on the target struct depends
on the struct layout and on heap placement (for `length` larger than the
struct), so it has no layout-independent semantics.  The model keeps that
effect abstract: `bufCopyClobber target reference length` is the target
struct after the memcpy.  `memset(tag->value_address, 0, n)` on a
`BufferValue` cell in `writeBasicTag`'s spBytes null path zeroes struct
bytes the same way; `bufMemsetClobber target n` is its result.  Theorems
about the engine are quantified over every resolution of these. -/
structure UBModel where
  bufCopyClobber : BufferValue → BufferValue → Nat → BufferValue
  bufMemsetClobber : BufferValue → Nat → BufferValue

/-- A concrete resolution used to evaluate the model on concrete inputs. -/
def trivialUB : UBModel := ⟨fun t _ _ => t, fun t _ => t⟩

/-- `_copy_string_value(reference_str, target_str, buffer_value_max_len)`:
bounded, re-terminating string copy.  The arguments are the byte lists the
two `char*` point to; the result is the target's new contents.  `memcpy`
writes the first `length` source bytes at positions `0..length-1` and the
terminator at `length`; later bytes of the target keep their contents. -/
def _copy_string_value (reference_str target_str : Option (List Nat))
    (buffer_value_max_len : Nat) : Bool × Option (List Nat) :=
  match reference_str, target_str with
  | some r, some t =>
    if buffer_value_max_len < 1 then (false, some t)
    else if r.headD 0 == 0 then (true, some t)
    else
      let length := min (cstrlen r) buffer_value_max_len
      (true, some (r.take length ++ [0] ++ t.drop (length + 1)))
  | _, t => (false, t)

/-- `_copy_buffer_value(reference_buf, target_buf)`: bounded buffer copy.
The zero-length-source path zero-fills the target's data array and clears
`written_length`.  The nonzero path performs the layout-dependent struct
`memcpy` (kept abstract via `ub`) and then stores the bounded length into
`written_length`, exactly as the C does after its memcpy. -/
def _copy_buffer_value (ub : UBModel) (reference_buf target_buf : Option BufferValue) :
    Bool × Option BufferValue :=
  match reference_buf, target_buf with
  | some r, some t =>
    if t.allocated_length < 1 then (false, some t)
    else if r.written_length == 0 then
      (true, some { t with
        buffer := t.buffer.map
          (fun l => List.replicate t.allocated_length 0 ++ l.drop t.allocated_length),
        written_length := 0 })
    else
      let length := min r.written_length t.allocated_length
      (true, some { ub.bufCopyClobber t r length with written_length := length })
  | _, t => (false, t)

/-- `_copyBasicValue(reference, target, buffer_value_max_len)`: deep copy of
a `BasicValue` into an already-allocated target; returns the updated target.
(The C's NULL-argument early return cannot arise: every call site passes
addresses of struct fields.)  The enumeration is closed, so the C `default`
arm is unreachable and has no model counterpart. -/
def _copyBasicValue (ub : UBModel) (reference target : BasicValue)
    (buffer_value_max_len : Nat) : BasicValue :=
  let t : BasicValue := { target with
    timestamp := reference.timestamp
    datatype := reference.datatype
    isNull := reference.isNull }
  if reference.isNull then t
  else
    match reference.datatype with
    | spText =>
      let v := (_copy_string_value reference.value.stringVal target.value.stringVal buffer_value_max_len).2
      { t with value := Value.vString v }
    | spUUID =>
      let v := (_copy_string_value reference.value.stringVal target.value.stringVal buffer_value_max_len).2
      { t with value := Value.vString v }
    | spString =>
      let v := (_copy_string_value reference.value.stringVal target.value.stringVal buffer_value_max_len).2
      { t with value := Value.vString v }
    | spBytes =>
      let v := (_copy_buffer_value ub reference.value.bytesVal target.value.bytesVal).2
      { t with value := Value.vBytes v }
    | _ => { t with value := reference.value }

/-! ## Tags, caller memory and the global state -/

/-- `FunctionalBasicTag`.  `value_address` is a non-owning reference into
caller memory (`none` = NULL).  `onChange` is a presence flag for the
registered change callback (its body has no modelled effect). -/
structure Tag where
  name : String
  alias_ : Int
  value_address : Option Nat
  local_writable : Bool
  remote_writable : Bool
  valueChanged : Bool
  lastRead : Nat
  buffer_value_max_len : Nat
  datatype : SparkplugDataType
  currentValue : BasicValue
  previousValue : BasicValue
  compareFunc : Option (BasicValue → BasicValue → Bool)
  onChange : Bool
  validateWrite : Option (BasicValue → Bool)

/-- The contents of one caller-owned memory cell, interpreted by the owning
tag's datatype: a scalar object, a `char` array, or a `BufferValue` struct.
`undef` is memory the program never gave a shape. -/
inductive Cell where
  | scalar (v : Value)
  | chars (bytes : List Nat)
  | buf (b : BufferValue)
  | undef
deriving DecidableEq, Repr

/-- A tag whose fields are all zero; the initial content of the tag store
(the store is only ever consulted at ids handed out by `createTag`). -/
def defaultTag : Tag :=
  { name := "", alias_ := 0, value_address := none, local_writable := false
    remote_writable := false, valueChanged := false, lastRead := 0
    buffer_value_max_len := 0, datatype := spInt8
    currentValue := ⟨0, spInt8, Value.vNone, true⟩
    previousValue := ⟨0, spInt8, Value.vNone, true⟩
    compareFunc := none, onChange := false, validateWrite := none }

instance : Inhabited Tag := ⟨defaultTag⟩

/-- The program state: the registry's globals (`_head` as the list of tag
ids in list order, `_NodeCount`, `_tags_array`, `_timestamp_function`),
the heap of tags (`store`) and caller-owned memory (`mem`).  The injected
timestamp function takes no arguments, so it is modelled by the value it
returns (`tsFn = none` = no function injected). -/
structure State where
  head : List Nat
  nodeCount : Nat
  tagsArray : Option (List Nat)
  store : Nat → Tag
  mem : Nat → Cell
  tsFn : Option Nat

/-- The state at program start with caller memory `m`: no tags, no index
array, no timestamp function. -/
def initialState (m : Nat → Cell) : State :=
  { head := [], nodeCount := 0, tagsArray := none
    store := fun _ => defaultTag, mem := m, tsFn := none }

/-- Update the tag object behind id `tid` (a store through a tag pointer). -/
def setTag (s : State) (tid : Nat) (tag : Tag) : State :=
  { s with store := fun j => if j = tid then tag else s.store j }

/-- Update the caller memory cell at `addr` (a store through `value_address`). -/
def setMem (s : State) (addr : Nat) (cell : Cell) : State :=
  { s with mem := fun a => if a = addr then cell else s.mem a }

/-! ## Registry: linked list and index array -/

/-- `getTagsCount()`: the maintained node count. -/
def getTagsCount (s : State) : Nat := s.nodeCount

/-- `_update_tags_array()`: rebuild the flat index array from the list.
The C walks the list from `_head`, writing tag pointers at indices
`_NodeCount-1, _NodeCount-2, ..., 0`, so index 0 receives the LAST list
element: the array is the reverse of the list.  With no nodes the array is
freed and set to NULL. -/
def _update_tags_array (s : State) : State :=
  if s.nodeCount = 0 then { s with tagsArray := none }
  else { s with tagsArray := some s.head.reverse }

/-- `_add_tag_to_list(tag)`: prepend a node for `tid` and rebuild the array. -/
def _add_tag_to_list (s : State) (tid : Nat) : State :=
  _update_tags_array { s with head := tid :: s.head, nodeCount := s.nodeCount + 1 }

/-- `_remove_tag_from_list(tag)`: unlink the first node whose `tag_ptr`
equals `tid` (pointer identity), decrement the count and rebuild the array;
false when no node matches. -/
def _remove_tag_from_list (s : State) (tid : Nat) : Bool × State :=
  if tid ∈ s.head then
    (true, _update_tags_array { s with head := s.head.erase tid, nodeCount := s.nodeCount - 1 })
  else (false, s)

/-- `findTag(matcherFn, arg)`: first tag of the list (most recent first)
matched by the predicate; the predicate receives the tag pointer (here its
id) like the C matcher does, with `arg` already captured. -/
def findTag (s : State) (matcherFn : Nat → Tag → Bool) : Option Nat :=
  s.head.find? (fun tid => matcherFn tid (s.store tid))

/-- `_tag_has_alias`. -/
def _tag_has_alias (alias_ : Int) : Nat → Tag → Bool := fun _ tag => tag.alias_ == alias_

/-- `aliasValid(alias_)`: no existing tag holds the alias_. -/
def aliasValid (s : State) (alias_ : Int) : Bool := (findTag s (_tag_has_alias alias_)).isNone

/-- `getNextAlias()`: 1 on an empty registry, otherwise a scan that starts
its running maximum at 0 and returns it plus one. -/
def getNextAlias (s : State) : Int :=
  if s.head = [] then 1
  else (s.head.foldl (fun m tid => if (s.store tid).alias_ > m then (s.store tid).alias_ else m) 0) + 1

/-- `_tag_has_name`. -/
def _tag_has_name (name : String) : Nat → Tag → Bool := fun _ tag => tag.name == name

/-- `getTagByName(name)`. -/
def getTagByName (s : State) (name : String) : Option Nat := findTag s (_tag_has_name name)

/-- `getTagByAlias(alias_)`. -/
def getTagByAlias (s : State) (alias_ : Int) : Option Nat := findTag s (_tag_has_alias alias_)

/-- `getTagByIdx(idx)`: positional lookup through the flat array, NULL when
the index is out of range. -/
def getTagByIdx (s : State) (idx : Nat) : Option Nat :=
  if idx < s.nodeCount then (s.tagsArray.getD [])[idx]? else none

/-! ## Tag creation and deletion -/

/-- `_init_string_value(value, max_str_length)`: allocate a zero-filled
`max_str_length + 1` byte string, or leave the pointer NULL for a
non-positive bound; rejects an already-allocated slot. -/
def _init_string_value (value : Option (List Nat)) (max_str_length : Nat) :
    Bool × Option (List Nat) :=
  match value with
  | some v => (false, some v)
  | none =>
    if max_str_length < 1 then (true, none)
    else (true, some (List.replicate (max_str_length + 1) 0))

/-- `_init_buffer_value(value, buffer_size)`: allocate a `BufferValue` and
its data array (no array, zero capacity for `buffer_size < 1`); rejects an
already-allocated slot.  The malloc'd array contents are modelled as zeros;
nothing observes them while `written_length = 0`. -/
def _init_buffer_value (value : Option BufferValue) (buffer_size : Nat) :
    Bool × Option BufferValue :=
  match value with
  | some v => (false, some v)
  | none =>
    if buffer_size < 1 then (true, some ⟨none, 0, 0⟩)
    else (true, some ⟨some (List.replicate buffer_size 0), 0, buffer_size⟩)

/-- `_init_functional_basic_tag`: build the initial tag record.  A colliding
alias_ is replaced by `getNextAlias()` against the registry as it is before
insertion.  The `tag->buffer_value_max_len` FIELD keeps the caller's
argument; the spUUID case overrides only the LOCAL variable used for the
string allocations (the C `case spUUID:` falls through after reassigning
the parameter). -/
def _init_functional_basic_tag (s : State) (name : String) (value_address : Option Nat)
    (alias_ : Int) (datatype : SparkplugDataType) (local_writable remote_writable : Bool)
    (buffer_value_max_len : Nat) : Tag :=
  let alias_ := if aliasValid s alias_ then alias_ else getNextAlias s
  let allocLen := if datatype = spUUID then 36 else buffer_value_max_len
  let initVal : Value :=
    match datatype with
    | spText => Value.vString (_init_string_value none allocLen).2
    | spUUID => Value.vString (_init_string_value none allocLen).2
    | spString => Value.vString (_init_string_value none allocLen).2
    | spBytes => Value.vBytes (_init_buffer_value none allocLen).2
    | _ => Value.vNone
  { name, alias_, value_address, local_writable, remote_writable
    valueChanged := false, lastRead := 0, buffer_value_max_len, datatype
    currentValue := ⟨0, datatype, initVal, true⟩
    previousValue := ⟨0, datatype, initVal, true⟩
    compareFunc := some DefaultCompareFn, onChange := false, validateWrite := none }

/-- `createTag(...)`: allocate a tag at the fresh address `tid`, initialise
it and insert it at the head of the list (allocation success assumed). -/
def createTag (s : State) (tid : Nat) (name : String) (value_address : Option Nat)
    (alias_ : Int) (datatype : SparkplugDataType) (local_writable remote_writable : Bool)
    (buffer_value_max_len : Nat) : State × Nat :=
  let tag := _init_functional_basic_tag s name value_address alias_ datatype
    local_writable remote_writable buffer_value_max_len
  (_add_tag_to_list (setTag s tid tag) tid, tid)

/-- `createStringTag`. -/
def createStringTag (s : State) (tid : Nat) (name : String) (value_address : Option Nat)
    (alias_ : Int) (lw rw : Bool) (string_max_len : Nat) : State × Nat :=
  createTag s tid name value_address alias_ spString lw rw string_max_len

/-- `createTextTag`. -/
def createTextTag (s : State) (tid : Nat) (name : String) (value_address : Option Nat)
    (alias_ : Int) (lw rw : Bool) (string_max_len : Nat) : State × Nat :=
  createTag s tid name value_address alias_ spText lw rw string_max_len

/-- `createUUIDTag`. -/
def createUUIDTag (s : State) (tid : Nat) (name : String) (value_address : Option Nat)
    (alias_ : Int) (lw rw : Bool) : State × Nat :=
  createTag s tid name value_address alias_ spUUID lw rw 36

/-- `createBytesTag`. -/
def createBytesTag (s : State) (tid : Nat) (name : String) (value_address : Option Nat)
    (alias_ : Int) (lw rw : Bool) (buffer_value_max_len : Nat) : State × Nat :=
  createTag s tid name value_address alias_ spBytes lw rw buffer_value_max_len

/-- `createInt32Tag` (the other fixed-width convenience constructors are the
same wrapper with their datatype; spInt32 stands in for the scenario). -/
def createInt32Tag (s : State) (tid : Nat) (name : String) (value_address : Option Nat)
    (alias_ : Int) (lw rw : Bool) : State × Nat :=
  createTag s tid name value_address alias_ spInt32 lw rw 0

/-- `deleteTag(tag)`: `_deallocate_functional_basic_tag` frees the owned
payloads and the tag storage and always returns true, after which the node
is unlinked; the result is the unlink's result.  (The freed tag object is
left in the store: it is unreferenced once unlinked, modelling the dangling
pointer.) -/
def deleteTag (s : State) (tid : Nat) : Bool × State := _remove_tag_from_list s tid

/-! ## Read engine -/

/-- The candidate `BasicValue` marshalled from the raw memory cell by
`readBasicTag`, starting from `{timestamp, tag->datatype, {0}, false}`.
Fixed-width types are copied by value out of the cell; the string-like
types make `stringValue` point at the live caller buffer and are forced
null for a zero capacity or an empty live string; spBytes points at the
live caller `BufferValue`.  A cell of the wrong shape is the C reading
reinterpreted bits; the model returns the zero value there (unreached when
the caller's cell matches the tag's datatype). -/
def marshalValue (tag : Tag) (cell : Cell) (timestamp : Nat) : BasicValue :=
  let base : BasicValue := ⟨timestamp, tag.datatype, Value.vNone, false⟩
  let sc : Value := match cell with | Cell.scalar v => v | _ => Value.vNone
  match tag.datatype with
  | spInt8 => { base with value := Value.vInt8 sc.int8Val }
  | spInt16 => { base with value := Value.vInt16 sc.int16Val }
  | spInt32 => { base with value := Value.vInt32 sc.int32Val }
  | spInt64 => { base with value := Value.vInt64 sc.int64Val }
  | spUInt8 => { base with value := Value.vUInt8 sc.uint8Val }
  | spUInt16 => { base with value := Value.vUInt16 sc.uint16Val }
  | spUInt32 => { base with value := Value.vUInt32 sc.uint32Val }
  | spDateTime => { base with value := Value.vUInt64 sc.uint64Val }
  | spUInt64 => { base with value := Value.vUInt64 sc.uint64Val }
  | spFloat => { base with value := Value.vFloat sc.floatBits }
  | spDouble => { base with value := Value.vDouble sc.doubleBits }
  | spBoolean => { base with value := Value.vBool sc.boolVal }
  | spText =>
    let live : List Nat := match cell with | Cell.chars b => b | _ => []
    if tag.buffer_value_max_len < 1 || cstrlen live == 0 then
      { base with value := Value.vString none, isNull := true }
    else { base with value := Value.vString (some live) }
  | spUUID =>
    let live : List Nat := match cell with | Cell.chars b => b | _ => []
    if tag.buffer_value_max_len < 1 || cstrlen live == 0 then
      { base with value := Value.vString none, isNull := true }
    else { base with value := Value.vString (some live) }
  | spString =>
    let live : List Nat := match cell with | Cell.chars b => b | _ => []
    if tag.buffer_value_max_len < 1 || cstrlen live == 0 then
      { base with value := Value.vString none, isNull := true }
    else { base with value := Value.vString (some live) }
  | spBytes =>
    let live : BufferValue := match cell with | Cell.buf b => b | _ => default
    { base with value := Value.vBytes (some live) }

/-- The change decision of `readBasicTag`: starts at true; a currentValue
timestamp of 0 means first read and keeps it true; with exactly one side
null the decision is the nulls' inequality; otherwise the tag's compare
function decides (no compare function keeps true). -/
def readChangeDecision (tag : Tag) (newValue : BasicValue) : Bool :=
  if tag.currentValue.timestamp == 0 then true
  else if tag.currentValue.isNull || newValue.isNull then
    tag.currentValue.isNull != newValue.isNull
  else
    match tag.compareFunc with
    | some f => f tag.currentValue newValue
    | none => true

/-- The body of `readBasicTag` on the tag object itself: returns the changed
flag and the updated tag.  `lastRead` is recorded unconditionally; a NULL
`value_address` short-circuits with true BEFORE `tag->valueChanged` is
updated; an unchanged value stops after recording `valueChanged`; a changed
value shifts `currentValue` into `previousValue` and the candidate into
`currentValue` (both via `_copyBasicValue`) and fires the optional change
callback (no modelled effect). -/
def readBasicTagAux (ub : UBModel) (tag : Tag) (mem : Nat → Cell) (timestamp : Nat) :
    Bool × Tag :=
  let tag := { tag with lastRead := timestamp }
  match tag.value_address with
  | none => (true, tag)
  | some addr =>
    let newValue := marshalValue tag (mem addr) timestamp
    let valueChanged := readChangeDecision tag newValue
    let tag := { tag with valueChanged := valueChanged }
    if valueChanged then
      let prev := _copyBasicValue ub tag.currentValue tag.previousValue tag.buffer_value_max_len
      let curr := _copyBasicValue ub newValue tag.currentValue tag.buffer_value_max_len
      (true, { tag with previousValue := prev, currentValue := curr })
    else (false, tag)

/-- `readBasicTag(tag, timestamp)`: false on a NULL tag pointer; otherwise
the tag object behind the pointer is read and updated in place.  All the
function's effects are on that tag object (it only reads `mem`). -/
def readBasicTag (ub : UBModel) (s : State) (tid? : Option Nat) (timestamp : Nat) :
    Bool × State :=
  match tid? with
  | none => (false, s)
  | some tid =>
    let rt := readBasicTagAux ub (s.store tid) s.mem timestamp
    (rt.1, setTag s tid rt.2)

/-! ## Write engine -/

/-- The type-dispatched store of `writeBasicTag` into the raw memory cell,
given the cell's old contents; returns the new contents.  Fixed-width types
assign the matching union member; the string-like types zero-fill the first
`buffer_value_max_len` bytes when the candidate is null/NULL/empty and
otherwise perform the bounded string copy in place; spBytes zero-fills the
struct (layout-dependent, via `ub`) when the candidate is null/invalid and
otherwise performs `_copy_buffer_value` into the caller's struct.  The
enumeration is closed, so the C `default: return false` arm is unreachable
and every dispatch reports success. -/
def writeDispatch (ub : UBModel) (tag : Tag) (cell : Cell) (newValue : BasicValue) : Cell :=
  match tag.datatype with
  | spInt8 => Cell.scalar (Value.vInt8 newValue.value.int8Val)
  | spInt16 => Cell.scalar (Value.vInt16 newValue.value.int16Val)
  | spInt32 => Cell.scalar (Value.vInt32 newValue.value.int32Val)
  | spInt64 => Cell.scalar (Value.vInt64 newValue.value.int64Val)
  | spUInt8 => Cell.scalar (Value.vUInt8 newValue.value.uint8Val)
  | spUInt16 => Cell.scalar (Value.vUInt16 newValue.value.uint16Val)
  | spUInt32 => Cell.scalar (Value.vUInt32 newValue.value.uint32Val)
  | spFloat => Cell.scalar (Value.vFloat newValue.value.floatBits)
  | spDouble => Cell.scalar (Value.vDouble newValue.value.doubleBits)
  | spBoolean => Cell.scalar (Value.vBool newValue.value.boolVal)
  | spDateTime => Cell.scalar (Value.vUInt64 newValue.value.uint64Val)
  | spUInt64 => Cell.scalar (Value.vUInt64 newValue.value.uint64Val)
  | spText =>
    let live : List Nat := match cell with | Cell.chars b => b | _ => []
    if newValue.isNull || newValue.value.stringVal.isNone
        || (newValue.value.stringVal.getD []).headD 0 == 0 then
      Cell.chars (List.replicate tag.buffer_value_max_len 0 ++ live.drop tag.buffer_value_max_len)
    else
      Cell.chars ((_copy_string_value newValue.value.stringVal (some live)
        tag.buffer_value_max_len).2.getD live)
  | spUUID =>
    let live : List Nat := match cell with | Cell.chars b => b | _ => []
    if newValue.isNull || newValue.value.stringVal.isNone
        || (newValue.value.stringVal.getD []).headD 0 == 0 then
      Cell.chars (List.replicate tag.buffer_value_max_len 0 ++ live.drop tag.buffer_value_max_len)
    else
      Cell.chars ((_copy_string_value newValue.value.stringVal (some live)
        tag.buffer_value_max_len).2.getD live)
  | spString =>
    let live : List Nat := match cell with | Cell.chars b => b | _ => []
    if newValue.isNull || newValue.value.stringVal.isNone
        || (newValue.value.stringVal.getD []).headD 0 == 0 then
      Cell.chars (List.replicate tag.buffer_value_max_len 0 ++ live.drop tag.buffer_value_max_len)
    else
      Cell.chars ((_copy_string_value newValue.value.stringVal (some live)
        tag.buffer_value_max_len).2.getD live)
  | spBytes =>
    let live : BufferValue := match cell with | Cell.buf b => b | _ => default
    let nb := newValue.value.bytesVal
    if newValue.isNull || nb.isNone || (nb.getD default).buffer.isNone
        || (nb.getD default).allocated_length < 1 || (nb.getD default).written_length < 1 then
      Cell.buf (ub.bufMemsetClobber live tag.buffer_value_max_len)
    else
      Cell.buf ((_copy_buffer_value ub nb (some live)).2.getD live)

/-- `writeBasicTag(tag, newValue)`: rejected with no memory effect when the
tag has no `value_address`, when both writability flags are clear, or when a
registered `validateWrite` callback rejects the candidate; otherwise the
candidate is stored into the caller's cell through the type dispatch and
the call reports success.  `currentValue`/`previousValue`/timestamps are
never touched. -/
def writeBasicTag (ub : UBModel) (s : State) (tid : Nat) (newValue : BasicValue) :
    Bool × State :=
  let tag := s.store tid
  match tag.value_address with
  | none => (false, s)
  | some addr =>
    if !tag.local_writable && !tag.remote_writable then (false, s)
    else
      match tag.validateWrite with
      | some f => if !(f newValue) then (false, s)
                  else (true, setMem s addr (writeDispatch ub tag (s.mem addr) newValue))
      | none => (true, setMem s addr (writeDispatch ub tag (s.mem addr) newValue))

/-! ## v1.3.0 additions: callbacks, timestamp source, read-all -/

/-- `addOnChangeCallback(tag, callbackFn)` (callback bodies have no modelled
effect; the flag records registration). -/
def addOnChangeCallback (s : State) (tid : Nat) : Bool × State :=
  (true, setTag s tid { s.store tid with onChange := true })

/-- `addValidateWriteCallback(tag, callbackFn)`. -/
def addValidateWriteCallback (s : State) (tid : Nat) (callbackFn : BasicValue → Bool) :
    Bool × State :=
  (true, setTag s tid { s.store tid with validateWrite := some callbackFn })

/-- `_timestamp()`: 0 when no timestamp function has been injected,
otherwise the injected function's value. -/
def _timestamp (s : State) : Nat :=
  match s.tsFn with
  | none => 0
  | some v => v

/-- `setBasicTagTimestampFunction(fn)`: rejects NULL, otherwise installs. -/
def setBasicTagTimestampFunction (s : State) (fn : Option Nat) : Bool × State :=
  match fn with
  | none => (false, s)
  | some v => (true, { s with tsFn := some v })

/-- One iteration of the `readAllBasicTags` loop at index `i`: look the tag
up by index, read it with `_timestamp()`, and report whether this iteration
sets `valuesChanged` — which the C does only when the read returned true AND
the tag's alias is above -1000 ("Ignore tag changes for aliases below
-1000").  A NULL positional lookup makes `readBasicTag` return false, so
the alias is not examined (and the C does not dereference it). -/
def readAllStep (ub : UBModel) (s : State) (i : Nat) : Bool × State :=
  let currentTag := getTagByIdx s i
  let rs := readBasicTag ub s currentTag (_timestamp s)
  match currentTag with
  | some tid => (rs.1 && decide ((rs.2.store tid).alias_ > -1000), rs.2)
  | none => (false, rs.2)

/-- The `readAllBasicTags` loop over the remaining indices, accumulating
`valuesChanged`. -/
def readAllGo (ub : UBModel) : State → List Nat → Bool → Bool × State
  | s, [], valuesChanged => (valuesChanged, s)
  | s, i :: rest, valuesChanged =>
    let qs := readAllStep ub s i
    readAllGo ub qs.2 rest (valuesChanged || qs.1)

/-- `readAllBasicTags()`: read the tags at indices `0 .. getTagsCount()-1`,
each with `_timestamp()`.  The C re-reads `getTagsCount()` as the loop
bound each iteration; `readBasicTag` never alters the registry, so the
bound is the count at entry and the loop visits exactly these indices. -/
def readAllBasicTags (ub : UBModel) (s : State) : Bool × State :=
  readAllGo ub s (List.range (getTagsCount s)) false

/-- The state after the first `n` iterations of a `readAllBasicTags` pass
started in `s` (used to speak about the individual reads of a pass). -/
def readAllUpTo (ub : UBModel) (s : State) (n : Nat) : State :=
  (readAllGo ub s (List.range n) false).2

/-! ## Reachable states and the registry invariant -/

/-- The states the library's public API can produce: the initial state with
any caller memory, followed by any sequence of API calls.  Tag allocation
yields a pointer distinct from every live tag's (`tid ∉ s.head`); the
caller may rewrite its own memory cells at any time (`callerMem`).  Per the
spec, tags are mutated only through the engine and callback registration. -/
inductive Reachable : State → Prop where
  | init (m : Nat → Cell) : Reachable (initialState m)
  | create (s : State) (tid : Nat) (name : String) (value_address : Option Nat)
      (alias_ : Int) (datatype : SparkplugDataType) (lw rw : Bool)
      (buffer_value_max_len : Nat) : Reachable s → tid ∉ s.head →
      Reachable (createTag s tid name value_address alias_ datatype lw rw buffer_value_max_len).1
  | delete (s : State) (tid : Nat) : Reachable s → Reachable (deleteTag s tid).2
  | read (s : State) (ub : UBModel) (tid? : Option Nat) (timestamp : Nat) :
      Reachable s → Reachable (readBasicTag ub s tid? timestamp).2
  | write (s : State) (ub : UBModel) (tid : Nat) (newValue : BasicValue) :
      Reachable s → Reachable (writeBasicTag ub s tid newValue).2
  | onChangeCb (s : State) (tid : Nat) : Reachable s → Reachable (addOnChangeCallback s tid).2
  | validateCb (s : State) (tid : Nat) (f : BasicValue → Bool) :
      Reachable s → Reachable (addValidateWriteCallback s tid f).2
  | setTs (s : State) (fn : Option Nat) :
      Reachable s → Reachable (setBasicTagTimestampFunction s fn).2
  | readAll (s : State) (ub : UBModel) : Reachable s → Reachable (readAllBasicTags ub s).2
  | callerMem (s : State) (m : Nat → Cell) : Reachable s → Reachable { s with mem := m }

/-- The registry invariant maintained by every API operation: the count
matches the list, the flat array is the (reversed) list, tag pointers and
live aliases are pairwise distinct, and a tag that has no memory reference
still carries the never-read timestamp sentinel. -/
structure WF (s : State) : Prop where
  count_eq : s.nodeCount = s.head.length
  array_eq : s.tagsArray = if s.head = [] then none else some s.head.reverse
  nodup : s.head.Nodup
  alias_nodup : (s.head.map (fun tid => (s.store tid).alias_)).Nodup
  null_addr_ts : ∀ tid ∈ s.head, (s.store tid).value_address = none →
      (s.store tid).currentValue.timestamp = 0

/-! ## Concrete scenario states used by counterexamples and witnesses -/

/-- Caller memory for the spec's example scenario: an int32 cell holding 10. -/
def c2mem : Nat → Cell := fun _ => Cell.scalar (Value.vInt32 10)

/-- The example scenario after creating the integer tag (alias 1, writable). -/
def c2s1 : State := (createInt32Tag (initialState c2mem) 1 "scenario/int 1" (some 0) 1 true false).1

/-- The candidate value 20 written in the example scenario. -/
def c2newValue : BasicValue := ⟨0, spInt32, Value.vInt32 20, false⟩

/-- The example scenario after `write(20)`. -/
def c2s2 : State := (writeBasicTag trivialUB c2s1 1 c2newValue).2

/-- The example scenario's `read(t=100)`. -/
def c2read1 : Bool × State := readBasicTag trivialUB c2s2 (some 1) 100

/-- The example scenario's `read(t=200)`. -/
def c2read2 : Bool × State := readBasicTag trivialUB c2read1.2 (some 1) 200

/-- A registry with tag 1 ("first", inserted first) and tag 2 ("second",
inserted second, so at the head of the list). -/
def c3s : State :=
  (createTag ((createTag (initialState (fun _ => Cell.undef)) 1 "first" none 1
    spInt32 false false 0).1) 2 "second" none 2 spInt32 false false 0).1

/-- Caller memory holding an int32 cell with 7. -/
def c4mem : Nat → Cell := fun _ => Cell.scalar (Value.vInt32 7)

/-- A registry with a single fresh, readable tag whose alias is -1000. -/
def c4s : State := (createInt32Tag (initialState c4mem) 1 "filtered" (some 0) (-1000) true false).1

/-- A registry with one tag both of whose writability flags are clear. -/
def c6s : State := (createInt32Tag (initialState c4mem) 1 "readonly" (some 0) 1 false false).1

/-- A candidate value for writes to the read-only tag. -/
def c6v : BasicValue := ⟨0, spInt32, Value.vInt32 9, false⟩

/-- Caller memory whose cell 0 is a 5-byte char array of 7s. -/
def c7mem : Nat → Cell := fun _ => Cell.chars [7, 7, 7, 7, 7]

/-- A writable string tag with `buffer_value_max_len = 2` over that array. -/
def c7s : State := (createStringTag (initialState c7mem) 1 "short" (some 0) 1 true false 2).1

/-- A candidate string "ABC" (three bytes and a terminator): longer than 2. -/
def c7v : BasicValue := ⟨0, spString, Value.vString (some [65, 66, 67, 0]), false⟩

/-- A registry with a single tag whose alias is -5. -/
def c8s : State :=
  (createTag (initialState (fun _ => Cell.undef)) 1 "negative" none (-5) spInt32 false false 0).1

/-- A registry with tag 1 (alias 1, inserted first) and tag 2 (alias 2). -/
def c9s : State :=
  (createTag ((createTag (initialState (fun _ => Cell.undef)) 1 "keep" none 1
    spInt32 false false 0).1) 2 "drop" none 2 spInt32 false false 0).1

/-- Caller memory holding an int32 cell with 5. -/
def c10mem : Nat → Cell := fun _ => Cell.scalar (Value.vInt32 5)

/-- A registry with a single fresh readable tag of alias -2000, no timestamp
function injected. -/
def c10s : State := (createInt32Tag (initialState c10mem) 1 "ignored" (some 0) (-2000) true false).1

/-- A registry with a single fresh readable tag of alias 1, no timestamp
function injected. -/
def c10ws : State := (createInt32Tag (initialState c10mem) 1 "watched" (some 0) 1 true false).1

/-! ## Helper lemmas: state updates and frame conditions -/

theorem setTag_store_self (s : State) (tid : Nat) (tag : Tag) :
    (setTag s tid tag).store tid = tag := by
  simp [setTag]

theorem setTag_store_ne (s : State) (tid j : Nat) (tag : Tag) (h : j ≠ tid) :
    (setTag s tid tag).store j = s.store j := by
  simp [setTag, h]

theorem _update_tags_array_store (s : State) : (_update_tags_array s).store = s.store := by
  unfold _update_tags_array; split <;> rfl

theorem _update_tags_array_head (s : State) : (_update_tags_array s).head = s.head := by
  unfold _update_tags_array; split <;> rfl

theorem _update_tags_array_nodeCount (s : State) :
    (_update_tags_array s).nodeCount = s.nodeCount := by
  unfold _update_tags_array; split <;> rfl

theorem _update_tags_array_mem (s : State) : (_update_tags_array s).mem = s.mem := by
  unfold _update_tags_array; split <;> rfl

theorem _update_tags_array_tsFn (s : State) : (_update_tags_array s).tsFn = s.tsFn := by
  unfold _update_tags_array; split <;> rfl

theorem createTag_store_self (s : State) (tid : Nat) (name : String) (addr : Option Nat)
    (a : Int) (dt : SparkplugDataType) (lw rw : Bool) (mlen : Nat) :
    ((createTag s tid name addr a dt lw rw mlen).1).store tid =
      _init_functional_basic_tag s name addr a dt lw rw mlen := by
  simp [createTag, _add_tag_to_list, _update_tags_array_store, setTag_store_self]

theorem _copyBasicValue_timestamp (ub : UBModel) (r t : BasicValue) (m : Nat) :
    (_copyBasicValue ub r t m).timestamp = r.timestamp := by
  unfold _copyBasicValue
  split
  · rfl
  · split <;> rfl

theorem marshalValue_timestamp (tag : Tag) (cell : Cell) (ts : Nat) :
    (marshalValue tag cell ts).timestamp = ts := by
  unfold marshalValue
  split <;> (try dsimp only) <;> split <;> (try dsimp only) <;> (try split) <;> rfl

theorem readBasicTagAux_fst_of_ts0 (ub : UBModel) (tag : Tag) (mem : Nat → Cell) (t : Nat)
    (h : tag.currentValue.timestamp = 0) : (readBasicTagAux ub tag mem t).1 = true := by
  unfold readBasicTagAux
  cases haddr : tag.value_address with
  | none => simp [haddr]
  | some addr => simp [haddr, readChangeDecision, h]

theorem readBasicTagAux_value_address (ub : UBModel) (tag : Tag) (mem : Nat → Cell) (t : Nat) :
    ((readBasicTagAux ub tag mem t).2).value_address = tag.value_address := by
  unfold readBasicTagAux
  cases haddr : tag.value_address with
  | none => simp [haddr]
  | some addr => simp only [haddr]; split <;> simp [haddr]

theorem readBasicTagAux_alias (ub : UBModel) (tag : Tag) (mem : Nat → Cell) (t : Nat) :
    ((readBasicTagAux ub tag mem t).2).alias_ = tag.alias_ := by
  unfold readBasicTagAux
  cases haddr : tag.value_address with
  | none => simp [haddr]
  | some addr => simp only [haddr]; split <;> simp

theorem readBasicTagAux_none_currentValue (ub : UBModel) (tag : Tag) (mem : Nat → Cell)
    (t : Nat) (h : tag.value_address = none) :
    ((readBasicTagAux ub tag mem t).2).currentValue = tag.currentValue := by
  unfold readBasicTagAux
  simp [h]

theorem readBasicTagAux_ts0_keeps_ts0 (ub : UBModel) (tag : Tag) (mem : Nat → Cell)
    (h : tag.currentValue.timestamp = 0) :
    ((readBasicTagAux ub tag mem 0).2).currentValue.timestamp = 0 := by
  unfold readBasicTagAux
  cases haddr : tag.value_address with
  | none => simpa [haddr] using h
  | some addr =>
    simp only [haddr]
    rw [if_pos (by simp [readChangeDecision, h])]
    simp [_copyBasicValue_timestamp, marshalValue_timestamp]

theorem readBasicTagAux_fst_true_ts (ub : UBModel) (tag : Tag) (mem : Nat → Cell)
    (t : Nat) (addr : Nat) (h : tag.value_address = some addr)
    (hr : (readBasicTagAux ub tag mem t).1 = true) :
    ((readBasicTagAux ub tag mem t).2).currentValue.timestamp = t := by
  unfold readBasicTagAux at hr ⊢
  simp only [h] at hr ⊢
  split at hr
  next hvc =>
    rw [if_pos hvc]
    simp [_copyBasicValue_timestamp, marshalValue_timestamp]
  next hvc =>
    simp at hr

theorem readBasicTag_snd_head (ub : UBModel) (s : State) (tid? : Option Nat) (t : Nat) :
    (readBasicTag ub s tid? t).2.head = s.head := by
  cases tid? <;> simp [readBasicTag, setTag]

theorem readBasicTag_snd_nodeCount (ub : UBModel) (s : State) (tid? : Option Nat) (t : Nat) :
    (readBasicTag ub s tid? t).2.nodeCount = s.nodeCount := by
  cases tid? <;> simp [readBasicTag, setTag]

theorem readBasicTag_snd_tagsArray (ub : UBModel) (s : State) (tid? : Option Nat) (t : Nat) :
    (readBasicTag ub s tid? t).2.tagsArray = s.tagsArray := by
  cases tid? <;> simp [readBasicTag, setTag]

theorem readBasicTag_snd_mem (ub : UBModel) (s : State) (tid? : Option Nat) (t : Nat) :
    (readBasicTag ub s tid? t).2.mem = s.mem := by
  cases tid? <;> simp [readBasicTag, setTag]

theorem readBasicTag_snd_tsFn (ub : UBModel) (s : State) (tid? : Option Nat) (t : Nat) :
    (readBasicTag ub s tid? t).2.tsFn = s.tsFn := by
  cases tid? <;> simp [readBasicTag, setTag]

theorem readBasicTag_store_eq (ub : UBModel) (s : State) (tid : Nat) (t : Nat) :
    (readBasicTag ub s (some tid) t).2.store tid =
      (readBasicTagAux ub (s.store tid) s.mem t).2 := by
  simp [readBasicTag, setTag_store_self]

theorem readBasicTag_store_ne (ub : UBModel) (s : State) (tid j : Nat) (t : Nat)
    (h : j ≠ tid) : (readBasicTag ub s (some tid) t).2.store j = s.store j := by
  simp [readBasicTag, setTag, h]

theorem readBasicTag_none_store (ub : UBModel) (s : State) (t : Nat) :
    (readBasicTag ub s none t).2.store = s.store := rfl

theorem writeBasicTag_snd_store (ub : UBModel) (s : State) (tid : Nat) (nv : BasicValue) :
    (writeBasicTag ub s tid nv).2.store = s.store := by
  unfold writeBasicTag
  dsimp only
  cases h : (s.store tid).value_address with
  | none => simp [h]
  | some addr =>
    simp only [h]
    split
    · rfl
    · split
      · split
        · rfl
        · simp [setMem]
      · simp [setMem]

theorem writeBasicTag_snd_head (ub : UBModel) (s : State) (tid : Nat) (nv : BasicValue) :
    (writeBasicTag ub s tid nv).2.head = s.head := by
  unfold writeBasicTag
  dsimp only
  cases h : (s.store tid).value_address with
  | none => simp [h]
  | some addr =>
    simp only [h]
    split
    · rfl
    · split
      · split
        · rfl
        · simp [setMem]
      · simp [setMem]

theorem writeBasicTag_snd_nodeCount (ub : UBModel) (s : State) (tid : Nat) (nv : BasicValue) :
    (writeBasicTag ub s tid nv).2.nodeCount = s.nodeCount := by
  unfold writeBasicTag
  dsimp only
  cases h : (s.store tid).value_address with
  | none => simp [h]
  | some addr =>
    simp only [h]
    split
    · rfl
    · split
      · split
        · rfl
        · simp [setMem]
      · simp [setMem]

theorem writeBasicTag_snd_tagsArray (ub : UBModel) (s : State) (tid : Nat) (nv : BasicValue) :
    (writeBasicTag ub s tid nv).2.tagsArray = s.tagsArray := by
  unfold writeBasicTag
  dsimp only
  cases h : (s.store tid).value_address with
  | none => simp [h]
  | some addr =>
    simp only [h]
    split
    · rfl
    · split
      · split
        · rfl
        · simp [setMem]
      · simp [setMem]

theorem writeBasicTag_snd_tsFn (ub : UBModel) (s : State) (tid : Nat) (nv : BasicValue) :
    (writeBasicTag ub s tid nv).2.tsFn = s.tsFn := by
  unfold writeBasicTag
  dsimp only
  cases h : (s.store tid).value_address with
  | none => simp [h]
  | some addr =>
    simp only [h]
    split
    · rfl
    · split
      · split
        · rfl
        · simp [setMem]
      · simp [setMem]

theorem readAllStep_snd_head (ub : UBModel) (s : State) (i : Nat) :
    (readAllStep ub s i).2.head = s.head := by
  unfold readAllStep
  cases h : getTagByIdx s i <;> simp [h, readBasicTag_snd_head]

theorem readAllStep_snd_nodeCount (ub : UBModel) (s : State) (i : Nat) :
    (readAllStep ub s i).2.nodeCount = s.nodeCount := by
  unfold readAllStep
  cases h : getTagByIdx s i <;> simp [h, readBasicTag_snd_nodeCount]

theorem readAllStep_snd_tagsArray (ub : UBModel) (s : State) (i : Nat) :
    (readAllStep ub s i).2.tagsArray = s.tagsArray := by
  unfold readAllStep
  cases h : getTagByIdx s i <;> simp [h, readBasicTag_snd_tagsArray]

theorem readAllStep_snd_mem (ub : UBModel) (s : State) (i : Nat) :
    (readAllStep ub s i).2.mem = s.mem := by
  unfold readAllStep
  cases h : getTagByIdx s i <;> simp [h, readBasicTag_snd_mem]

theorem readAllStep_snd_tsFn (ub : UBModel) (s : State) (i : Nat) :
    (readAllStep ub s i).2.tsFn = s.tsFn := by
  unfold readAllStep
  cases h : getTagByIdx s i <;> simp [h, readBasicTag_snd_tsFn]

theorem readAllGo_snd_head (ub : UBModel) (is : List Nat) : ∀ (s : State) (acc : Bool),
    (readAllGo ub s is acc).2.head = s.head := by
  induction is with
  | nil => intro s acc; rfl
  | cons i rest ih =>
    intro s acc
    rw [readAllGo, ih]
    exact readAllStep_snd_head ub s i

theorem readAllGo_snd_tsFn (ub : UBModel) (is : List Nat) : ∀ (s : State) (acc : Bool),
    (readAllGo ub s is acc).2.tsFn = s.tsFn := by
  induction is with
  | nil => intro s acc; rfl
  | cons i rest ih =>
    intro s acc
    rw [readAllGo, ih]
    exact readAllStep_snd_tsFn ub s i

theorem readAllGo_snd_acc (ub : UBModel) (is : List Nat) : ∀ (s : State) (acc : Bool),
    (readAllGo ub s is acc).2 = (readAllGo ub s is false).2 := by
  induction is with
  | nil => intro s acc; rfl
  | cons i rest ih =>
    intro s acc
    rw [readAllGo, readAllGo, ih, ih _ (false || (readAllStep ub s i).1)]

theorem readAllGo_fst_acc (ub : UBModel) (is : List Nat) : ∀ (s : State) (acc : Bool),
    (readAllGo ub s is acc).1 = (acc || (readAllGo ub s is false).1) := by
  induction is with
  | nil => intro s acc; simp [readAllGo]
  | cons i rest ih =>
    intro s acc
    rw [readAllGo, readAllGo, ih, ih _ (false || (readAllStep ub s i).1)]
    simp [Bool.or_assoc]

theorem readAllGo_take_cons (ub : UBModel) (s : State) (i : Nat) (rest : List Nat) (k : Nat) :
    (readAllGo ub s ((i :: rest).take (k + 1)) false).2 =
      (readAllGo ub (readAllStep ub s i).2 (rest.take k) false).2 := by
  rw [List.take_succ_cons, readAllGo, readAllGo_snd_acc]

/-- The loop result is true exactly when some iteration reports a
qualifying change (stated with the state reached before that iteration). -/
theorem readAllGo_fst_iff (ub : UBModel) (is : List Nat) : ∀ (s : State),
    ((readAllGo ub s is false).1 = true ↔
      ∃ k, ∃ hk : k < is.length,
        (readAllStep ub (readAllGo ub s (is.take k) false).2 (is.get ⟨k, hk⟩)).1 = true) := by
  induction is with
  | nil =>
    intro s
    constructor
    · intro h; exact absurd h (by simp [readAllGo])
    · rintro ⟨k, hk, -⟩; exact absurd hk (by simp)
  | cons i rest ih =>
    intro s
    rw [readAllGo, readAllGo_fst_acc]
    simp only [Bool.false_or]
    rw [Bool.or_eq_true]
    constructor
    · rintro (hq | hrest)
      · exact ⟨0, Nat.succ_pos _, by simpa [readAllGo] using hq⟩
      · rcases (ih _).1 hrest with ⟨k, hk, hs⟩
        refine ⟨k + 1, Nat.succ_lt_succ hk, ?_⟩
        rw [readAllGo_take_cons]
        simpa using hs
    · rintro ⟨k, hk, hs⟩
      cases k with
      | zero =>
        left
        simpa [readAllGo] using hs
      | succ k =>
        right
        refine (ih _).2 ⟨k, Nat.lt_of_succ_lt_succ hk, ?_⟩
        rw [readAllGo_take_cons] at hs
        simpa using hs

/-! ## Helper lemmas: aliases -/

theorem aliasValid_iff (s : State) (a : Int) :
    aliasValid s a = true ↔ ∀ tid ∈ s.head, (s.store tid).alias_ ≠ a := by
  unfold aliasValid findTag _tag_has_alias
  rw [Option.isNone_iff_eq_none, List.find?_eq_none]
  simp

theorem foldl_maxStep_le_init (g : Nat → Int) (l : List Nat) : ∀ (m : Int),
    m ≤ l.foldl (fun acc y => if g y > acc then g y else acc) m := by
  induction l with
  | nil => intro m; exact le_refl m
  | cons y l ih =>
    intro m
    refine le_trans ?_ (ih _)
    by_cases h : g y > m
    · simp only [if_pos h]; exact le_of_lt h
    · simp only [if_neg h]; exact le_refl m

theorem foldl_maxStep_ge_mem (g : Nat → Int) (l : List Nat) : ∀ (m : Int) (x : Nat), x ∈ l →
    g x ≤ l.foldl (fun acc y => if g y > acc then g y else acc) m := by
  induction l with
  | nil => intro m x hx; exact absurd hx (List.not_mem_nil x)
  | cons y l ih =>
    intro m x hx
    rcases List.mem_cons.1 hx with rfl | hx
    · rw [List.foldl_cons]
      refine le_trans ?_ (foldl_maxStep_le_init g l _)
      by_cases h : g x > m
      · simp only [if_pos h]; exact le_refl _
      · simp only [if_neg h]; exact le_of_not_lt h
    · exact ih _ x hx

theorem getNextAlias_gt (s : State) (tid : Nat) (h : tid ∈ s.head) :
    (s.store tid).alias_ < getNextAlias s := by
  unfold getNextAlias
  rw [if_neg (by intro he; rw [he] at h; exact List.not_mem_nil tid h)]
  exact Int.lt_add_one_iff.mpr (foldl_maxStep_ge_mem (fun j => (s.store j).alias_) s.head 0 tid h)

/-! ## Helper lemmas: facts about freshly initialised tags -/

theorem _init_tag_ts (s : State) (name : String) (addr : Option Nat) (a : Int)
    (dt : SparkplugDataType) (lw rw : Bool) (mlen : Nat) :
    (_init_functional_basic_tag s name addr a dt lw rw mlen).currentValue.timestamp = 0 := rfl

theorem _init_tag_alias (s : State) (name : String) (addr : Option Nat) (a : Int)
    (dt : SparkplugDataType) (lw rw : Bool) (mlen : Nat) :
    (_init_functional_basic_tag s name addr a dt lw rw mlen).alias_ =
      if aliasValid s a then a else getNextAlias s := rfl

theorem _init_tag_value_address (s : State) (name : String) (addr : Option Nat) (a : Int)
    (dt : SparkplugDataType) (lw rw : Bool) (mlen : Nat) :
    (_init_functional_basic_tag s name addr a dt lw rw mlen).value_address = addr := rfl

theorem createTag_store_ne (s : State) (tid j : Nat) (name : String) (addr : Option Nat)
    (a : Int) (dt : SparkplugDataType) (lw rw : Bool) (mlen : Nat) (h : j ≠ tid) :
    ((createTag s tid name addr a dt lw rw mlen).1).store j = s.store j := by
  unfold createTag _add_tag_to_list
  rw [_update_tags_array_store]
  exact setTag_store_ne s tid j _ h

theorem createTag_fields (s : State) (tid : Nat) (name : String) (addr : Option Nat)
    (a : Int) (dt : SparkplugDataType) (lw rw : Bool) (mlen : Nat) :
    ((createTag s tid name addr a dt lw rw mlen).1).head = tid :: s.head ∧
    ((createTag s tid name addr a dt lw rw mlen).1).nodeCount = s.nodeCount + 1 ∧
    ((createTag s tid name addr a dt lw rw mlen).1).tagsArray = some (tid :: s.head).reverse ∧
    ((createTag s tid name addr a dt lw rw mlen).1).mem = s.mem ∧
    ((createTag s tid name addr a dt lw rw mlen).1).tsFn = s.tsFn := by
  unfold createTag _add_tag_to_list _update_tags_array
  simp [setTag]

/-! ## Preservation of the registry invariant -/

theorem WF.initial (m : Nat → Cell) : WF (initialState m) := by
  constructor <;> simp [initialState]

theorem WF.create (s : State) (h : WF s) (tid : Nat) (hf : tid ∉ s.head)
    (name : String) (addr : Option Nat) (a : Int) (dt : SparkplugDataType)
    (lw rw : Bool) (mlen : Nat) : WF (createTag s tid name addr a dt lw rw mlen).1 := by
  obtain ⟨h1, h2, h3, h4, h5⟩ := createTag_fields s tid name addr a dt lw rw mlen
  have hmap : s.head.map (fun j => (((createTag s tid name addr a dt lw rw mlen).1).store j).alias_)
      = s.head.map (fun j => (s.store j).alias_) := by
    apply List.map_congr_left
    intro j hj
    rw [createTag_store_ne s tid j name addr a dt lw rw mlen (fun he => hf (he ▸ hj))]
  constructor
  · rw [h2, h1, List.length_cons, h.count_eq]
  · rw [h3, h1]; simp
  · rw [h1]; exact List.nodup_cons.2 ⟨hf, h.nodup⟩
  · rw [h1, List.map_cons, createTag_store_self, hmap]
    refine List.nodup_cons.2 ⟨?_, h.alias_nodup⟩
    rw [_init_tag_alias]
    by_cases hv : aliasValid s a
    · rw [if_pos hv]
      intro hmem
      rcases List.mem_map.1 hmem with ⟨j, hj, hje⟩
      exact (aliasValid_iff s a).1 hv j hj hje
    · rw [if_neg hv]
      intro hmem
      rcases List.mem_map.1 hmem with ⟨j, hj, hje⟩
      exact absurd hje (ne_of_lt (getNextAlias_gt s j hj))
  · rw [h1]
    intro j hj hja
    rcases List.mem_cons.1 hj with rfl | hj
    · rw [createTag_store_self]
      exact _init_tag_ts s name addr a dt lw rw mlen
    · rw [createTag_store_ne s tid j name addr a dt lw rw mlen (fun he => hf (he ▸ hj))] at hja ⊢
      exact h.null_addr_ts j hj hja

theorem WF.delete (s : State) (h : WF s) (tid : Nat) : WF (deleteTag s tid).2 := by
  unfold deleteTag _remove_tag_from_list
  by_cases hm : tid ∈ s.head
  · rw [if_pos hm]
    dsimp only
    unfold _update_tags_array
    have hlen : (s.head.erase tid).length = s.head.length - 1 := List.length_erase_of_mem hm
    have hcount : s.nodeCount - 1 = (s.head.erase tid).length := by
      rw [hlen, h.count_eq]
    by_cases hz : s.nodeCount - 1 = 0
    · rw [if_pos hz]
      have herase : s.head.erase tid = [] := List.length_eq_zero.1 (by omega)
      constructor
      · simpa [hz] using hcount
      · simp [herase]
      · simp [herase]
      · simp [herase]
      · simp [herase]
    · rw [if_neg hz]
      have hce := h.count_eq
      have herase : s.head.erase tid ≠ [] := by
        intro he
        apply hz
        have hl := congrArg List.length he
        rw [hlen] at hl
        simp at hl
        omega
      constructor
      · exact hcount
      · simp [herase]
      · exact (h.nodup).erase tid
      · exact List.Nodup.sublist
          (List.Sublist.map (fun j => (s.store j).alias_) (List.erase_sublist tid s.head))
          h.alias_nodup
      · intro j hj hja
        exact h.null_addr_ts j (List.mem_of_mem_erase hj) hja
  · rw [if_neg hm]; exact h

theorem WF.read (s : State) (h : WF s) (ub : UBModel) (tid? : Option Nat) (t : Nat) :
    WF (readBasicTag ub s tid? t).2 := by
  cases tid? with
  | none => exact h
  | some tid =>
    constructor
    · rw [readBasicTag_snd_nodeCount, readBasicTag_snd_head]; exact h.count_eq
    · rw [readBasicTag_snd_tagsArray, readBasicTag_snd_head]; exact h.array_eq
    · rw [readBasicTag_snd_head]; exact h.nodup
    · rw [readBasicTag_snd_head]
      have hmap : s.head.map (fun j => (((readBasicTag ub s (some tid) t).2).store j).alias_)
          = s.head.map (fun j => (s.store j).alias_) := by
        apply List.map_congr_left
        intro j hj
        by_cases hje : j = tid
        · subst hje; rw [readBasicTag_store_eq, readBasicTagAux_alias]
        · rw [readBasicTag_store_ne ub s tid j t hje]
      rw [hmap]; exact h.alias_nodup
    · rw [readBasicTag_snd_head]
      intro j hj hja
      by_cases hje : j = tid
      · subst hje
        rw [readBasicTag_store_eq] at hja ⊢
        rw [readBasicTagAux_value_address] at hja
        rw [readBasicTagAux_none_currentValue ub _ _ _ hja]
        exact h.null_addr_ts j hj hja
      · rw [readBasicTag_store_ne ub s tid j t hje] at hja ⊢
        exact h.null_addr_ts j hj hja

theorem WF.write (s : State) (h : WF s) (ub : UBModel) (tid : Nat) (nv : BasicValue) :
    WF (writeBasicTag ub s tid nv).2 := by
  constructor
  · rw [writeBasicTag_snd_nodeCount, writeBasicTag_snd_head]; exact h.count_eq
  · rw [writeBasicTag_snd_tagsArray, writeBasicTag_snd_head]; exact h.array_eq
  · rw [writeBasicTag_snd_head]; exact h.nodup
  · rw [writeBasicTag_snd_head, writeBasicTag_snd_store]; exact h.alias_nodup
  · rw [writeBasicTag_snd_head, writeBasicTag_snd_store]; exact h.null_addr_ts

theorem WF.setTagKeep (s : State) (h : WF s) (tid : Nat) (tag' : Tag)
    (halias : tag'.alias_ = (s.store tid).alias_)
    (haddr : tag'.value_address = (s.store tid).value_address)
    (hts : tag'.currentValue = (s.store tid).currentValue) :
    WF (setTag s tid tag') := by
  constructor
  · exact h.count_eq
  · exact h.array_eq
  · exact h.nodup
  · have hmap : s.head.map (fun j => ((setTag s tid tag').store j).alias_)
        = s.head.map (fun j => (s.store j).alias_) := by
      apply List.map_congr_left
      intro j hj
      by_cases hje : j = tid
      · subst hje; rw [setTag_store_self, halias]
      · rw [setTag_store_ne s tid j tag' hje]
    exact hmap ▸ h.alias_nodup
  · intro j hj hja
    by_cases hje : j = tid
    · subst hje
      rw [setTag_store_self] at hja ⊢
      rw [haddr] at hja
      rw [hts]
      exact h.null_addr_ts j hj hja
    · rw [setTag_store_ne s tid j tag' hje] at hja ⊢
      exact h.null_addr_ts j hj hja

theorem WF.onChangeCb (s : State) (h : WF s) (tid : Nat) :
    WF (addOnChangeCallback s tid).2 :=
  WF.setTagKeep s h tid _ rfl rfl rfl

theorem WF.validateCb (s : State) (h : WF s) (tid : Nat) (f : BasicValue → Bool) :
    WF (addValidateWriteCallback s tid f).2 :=
  WF.setTagKeep s h tid _ rfl rfl rfl

theorem WF.setTs (s : State) (h : WF s) (fn : Option Nat) :
    WF (setBasicTagTimestampFunction s fn).2 := by
  cases fn with
  | none => exact h
  | some v =>
    constructor
    · exact h.count_eq
    · exact h.array_eq
    · exact h.nodup
    · exact h.alias_nodup
    · exact h.null_addr_ts

theorem WF.callerMem (s : State) (h : WF s) (m : Nat → Cell) : WF { s with mem := m } := by
  constructor
  · exact h.count_eq
  · exact h.array_eq
  · exact h.nodup
  · exact h.alias_nodup
  · exact h.null_addr_ts

theorem WF.readAllStepPres (s : State) (h : WF s) (ub : UBModel) (i : Nat) :
    WF (readAllStep ub s i).2 := by
  unfold readAllStep
  cases hg : getTagByIdx s i <;> simp only [hg] <;> exact WF.read s h ub _ _

theorem WF.readAllGoPres (ub : UBModel) (is : List Nat) : ∀ (s : State) (acc : Bool),
    WF s → WF (readAllGo ub s is acc).2 := by
  induction is with
  | nil => intro s acc h; exact h
  | cons i rest ih =>
    intro s acc h
    rw [readAllGo]
    exact ih _ _ (WF.readAllStepPres s h ub i)

theorem WF.readAll (s : State) (h : WF s) (ub : UBModel) : WF (readAllBasicTags ub s).2 :=
  WF.readAllGoPres ub (List.range (getTagsCount s)) s false h

/-- Every reachable state satisfies the registry invariant. -/
theorem reachable_wf (s : State) (h : Reachable s) : WF s := by
  induction h with
  | init m => exact WF.initial m
  | create s tid name addr a dt lw rw mlen _ hf ih =>
    exact WF.create s ih tid hf name addr a dt lw rw mlen
  | delete s tid _ ih => exact WF.delete s ih tid
  | read s ub tid? t _ ih => exact WF.read s ih ub tid? t
  | write s ub tid nv _ ih => exact WF.write s ih ub tid nv
  | onChangeCb s tid _ ih => exact WF.onChangeCb s ih tid
  | validateCb s tid f _ ih => exact WF.validateCb s ih tid f
  | setTs s fn _ ih => exact WF.setTs s ih fn
  | readAll s ub _ ih => exact WF.readAll s ih ub
  | callerMem s m _ ih => exact WF.callerMem s ih m

/-! ## Helper lemmas: reads along a read-all pass -/

theorem readBasicTag_fst (ub : UBModel) (s : State) (tid : Nat) (t : Nat) :
    (readBasicTag ub s (some tid) t).1 = (readBasicTagAux ub (s.store tid) s.mem t).1 := rfl

theorem readBasicTagAux_none_fst (ub : UBModel) (tag : Tag) (mem : Nat → Cell) (t : Nat)
    (h : tag.value_address = none) : (readBasicTagAux ub tag mem t).1 = true := by
  unfold readBasicTagAux
  simp [h]

theorem readBasicTag_store_alias (ub : UBModel) (s : State) (tid? : Option Nat) (t j : Nat) :
    (((readBasicTag ub s tid? t).2).store j).alias_ = (s.store j).alias_ := by
  cases tid? with
  | none => rfl
  | some tid =>
    by_cases hj : j = tid
    · subst hj; rw [readBasicTag_store_eq, readBasicTagAux_alias]
    · rw [readBasicTag_store_ne ub s tid j t hj]

theorem readAllStep_store_alias (ub : UBModel) (s : State) (i j : Nat) :
    (((readAllStep ub s i).2).store j).alias_ = (s.store j).alias_ := by
  unfold readAllStep
  cases hg : getTagByIdx s i <;> simp [hg, readBasicTag_store_alias]

theorem readAllGo_store_alias (ub : UBModel) (is : List Nat) : ∀ (s : State) (acc : Bool)
    (j : Nat), (((readAllGo ub s is acc).2).store j).alias_ = (s.store j).alias_ := by
  induction is with
  | nil => intro s acc j; rfl
  | cons i rest ih =>
    intro s acc j
    rw [readAllGo, ih]
    exact readAllStep_store_alias ub s i j

theorem readBasicTag_keeps_ts0 (ub : UBModel) (s : State) (tid? : Option Nat)
    (h : ∀ k ∈ s.head, (s.store k).currentValue.timestamp = 0) :
    ∀ k ∈ s.head, (((readBasicTag ub s tid? 0).2).store k).currentValue.timestamp = 0 := by
  intro k hk
  cases tid? with
  | none => exact h k hk
  | some tid =>
    by_cases hj : k = tid
    · subst hj
      rw [readBasicTag_store_eq]
      exact readBasicTagAux_ts0_keeps_ts0 ub _ s.mem (h k hk)
    · rw [readBasicTag_store_ne ub s tid k 0 hj]
      exact h k hk

theorem readAllStep_keeps_ts0 (ub : UBModel) (u : State) (i : Nat) (hts : u.tsFn = none)
    (h : ∀ k ∈ u.head, (u.store k).currentValue.timestamp = 0) :
    ∀ k ∈ u.head, (((readAllStep ub u i).2).store k).currentValue.timestamp = 0 := by
  have h0 : _timestamp u = 0 := by unfold _timestamp; rw [hts]
  unfold readAllStep
  cases hg : getTagByIdx u i with
  | none => simpa [hg, h0] using readBasicTag_keeps_ts0 ub u none h
  | some tid => simpa [hg, h0] using readBasicTag_keeps_ts0 ub u (some tid) h

theorem readAllGo_keeps_ts0 (ub : UBModel) (is : List Nat) : ∀ (u : State) (acc : Bool),
    u.tsFn = none → (∀ k ∈ u.head, (u.store k).currentValue.timestamp = 0) →
    ∀ k ∈ u.head, (((readAllGo ub u is acc).2).store k).currentValue.timestamp = 0 := by
  induction is with
  | nil => intro u acc _ h; exact h
  | cons i rest ih =>
    intro u acc hts h k hk
    rw [readAllGo]
    have hts' : (readAllStep ub u i).2.tsFn = none := by rw [readAllStep_snd_tsFn]; exact hts
    have hh : (readAllStep ub u i).2.head = u.head := readAllStep_snd_head ub u i
    refine ih _ _ hts' ?_ k ?_
    · intro k' hk'
      exact readAllStep_keeps_ts0 ub u i hts h k' (hh ▸ hk')
    · rw [hh]; exact hk

theorem readAllGo_snd_nodeCount (ub : UBModel) (is : List Nat) : ∀ (s : State) (acc : Bool),
    (readAllGo ub s is acc).2.nodeCount = s.nodeCount := by
  induction is with
  | nil => intro s acc; rfl
  | cons i rest ih =>
    intro s acc
    rw [readAllGo, ih]
    exact readAllStep_snd_nodeCount ub s i

theorem readAllGo_snd_tagsArray (ub : UBModel) (is : List Nat) : ∀ (s : State) (acc : Bool),
    (readAllGo ub s is acc).2.tagsArray = s.tagsArray := by
  induction is with
  | nil => intro s acc; rfl
  | cons i rest ih =>
    intro s acc
    rw [readAllGo, ih]
    exact readAllStep_snd_tagsArray ub s i

theorem readAllUpTo_getTagByIdx (ub : UBModel) (s : State) (n i : Nat) :
    getTagByIdx (readAllUpTo ub s n) i = getTagByIdx s i := by
  unfold getTagByIdx readAllUpTo
  rw [readAllGo_snd_nodeCount, readAllGo_snd_tagsArray]

theorem readAllUpTo_timestamp (ub : UBModel) (s : State) (n : Nat) :
    _timestamp (readAllUpTo ub s n) = _timestamp s := by
  unfold _timestamp readAllUpTo
  rw [readAllGo_snd_tsFn]

theorem readAllUpTo_head (ub : UBModel) (s : State) (n : Nat) :
    (readAllUpTo ub s n).head = s.head := readAllGo_snd_head ub _ s false

theorem readAllUpTo_tsFn (ub : UBModel) (s : State) (n : Nat) :
    (readAllUpTo ub s n).tsFn = s.tsFn := readAllGo_snd_tsFn ub _ s false

theorem readAllUpTo_store_alias (ub : UBModel) (s : State) (n j : Nat) :
    ((readAllUpTo ub s n).store j).alias_ = (s.store j).alias_ :=
  readAllGo_store_alias ub _ s false j

/-- The read-all loop result is true exactly when some in-range index's
iteration reports a qualifying change. -/
theorem readAllBasicTags_fst_iff (ub : UBModel) (s : State) :
    ((readAllBasicTags ub s).1 = true ↔
      ∃ i, ∃ hi : i < getTagsCount s, (readAllStep ub (readAllUpTo ub s i) i).1 = true) := by
  unfold readAllBasicTags
  rw [readAllGo_fst_iff]
  constructor
  · rintro ⟨k, hk, hs⟩
    have hk' : k < getTagsCount s := by rwa [List.length_range] at hk
    refine ⟨k, hk', ?_⟩
    have h1 : (List.range (getTagsCount s)).take k = List.range k := by
      rw [List.take_range]
      exact congrArg List.range (min_eq_left (le_of_lt hk'))
    have h2 : (List.range (getTagsCount s)).get ⟨k, hk⟩ = k := List.get_range k hk
    rw [h1, h2] at hs
    exact hs
  · rintro ⟨i, hi, hs⟩
    have hk : i < (List.range (getTagsCount s)).length := by rwa [List.length_range]
    refine ⟨i, hk, ?_⟩
    have h1 : (List.range (getTagsCount s)).take i = List.range i := by
      rw [List.take_range]
      exact congrArg List.range (min_eq_left (le_of_lt hi))
    have h2 : (List.range (getTagsCount s)).get ⟨i, hk⟩ = i := List.get_range i hk
    rw [h1, h2]
    exact hs

/-- One iteration reports a qualifying change exactly when the indexed tag
exists, its read returns true, and its alias is above -1000. -/
theorem readAllStep_fst_iff (ub : UBModel) (u : State) (i : Nat) :
    ((readAllStep ub u i).1 = true ↔
      ∃ tid, getTagByIdx u i = some tid ∧
        (readBasicTag ub u (some tid) (_timestamp u)).1 = true ∧
        (((readBasicTag ub u (some tid) (_timestamp u)).2).store tid).alias_ > -1000) := by
  unfold readAllStep
  cases hg : getTagByIdx u i with
  | none => simp [hg]
  | some tid => simp [hg, Bool.and_eq_true, decide_eq_true_iff]

/-! ## Helper lemmas: C strings -/

theorem cstrlen_le_length (l : List Nat) : cstrlen l ≤ l.length := by
  unfold cstrlen
  exact (List.takeWhile_sublist _).length_le

theorem mem_take_cstrlen_ne_zero (l : List Nat) (n : Nat) (h : n ≤ cstrlen l) :
    ∀ b ∈ l.take n, b ≠ 0 := by
  intro b hb
  have ht : l.takeWhile (fun x => x != 0) ++ l.dropWhile (fun x => x != 0) = l :=
    List.takeWhile_append_dropWhile _ l
  rw [← ht, List.take_append_of_le_length h] at hb
  have hbw : b ∈ l.takeWhile (fun x => x != 0) := List.mem_of_mem_take hb
  simpa using List.mem_takeWhile_imp hbw

theorem headD_ne_zero_of_cstrlen_pos (l : List Nat) (h : 0 < cstrlen l) : l.headD 0 ≠ 0 := by
  cases l with
  | nil => simp [cstrlen] at h
  | cons x xs =>
    by_cases hx : x = 0
    · subst hx
      simp [cstrlen, List.takeWhile_cons] at h
    · simpa using hx

theorem cstr_append_zero (A B : List Nat) (h : ∀ b ∈ A, b ≠ 0) :
    cstr (A ++ 0 :: B) = A := by
  unfold cstr
  induction A with
  | nil => simp
  | cons x xs ih =>
    rw [List.cons_append, List.takeWhile_cons]
    have hx : (x != 0) = true := by simpa using h x (List.mem_cons_self x xs)
    rw [hx]
    simp [ih (fun b hb => h b (List.mem_cons_of_mem x hb))]

/-! ## Helper lemmas: erase and reverse -/

theorem reverse_erase_of_nodup (l : List Nat) (h : l.Nodup) (a : Nat) :
    (l.erase a).reverse = l.reverse.erase a := by
  rw [h.erase_eq_filter, (List.nodup_reverse.2 h).erase_eq_filter, List.filter_reverse]

/-- `getNextAlias` on a nonempty registry is one more than the maximum of 0
and the live aliases. -/
theorem getNextAlias_eq (s : State) (h : s.head ≠ []) :
    getNextAlias s = (s.head.map (fun tid => (s.store tid).alias_)).foldl max 0 + 1 := by
  unfold getNextAlias
  rw [if_neg h, List.foldl_map]
  congr 1
  apply List.foldl_ext
  intro acc x _
  by_cases hgt : (s.store x).alias_ > acc
  · rw [if_pos hgt, max_eq_right (le_of_lt hgt)]
  · rw [if_neg hgt, max_eq_left (le_of_not_lt hgt)]

/-! ## Reachability of the concrete scenario registries -/

theorem c3s_reachable : Reachable c3s := by
  unfold c3s
  refine Reachable.create _ 2 "second" none 2 spInt32 false false 0 ?_ (by decide)
  exact Reachable.create _ 1 "first" none 1 spInt32 false false 0 (Reachable.init _) (by decide)

theorem c9s_reachable : Reachable c9s := by
  unfold c9s
  refine Reachable.create _ 2 "drop" none 2 spInt32 false false 0 ?_ (by decide)
  exact Reachable.create _ 1 "keep" none 1 spInt32 false false 0 (Reachable.init _) (by decide)

theorem c10ws_reachable : Reachable c10ws := by
  unfold c10ws createInt32Tag
  exact Reachable.create _ 1 "watched" (some 0) 1 spInt32 true false 0 (Reachable.init _)
    (by decide)

/-! ## Claim theorems -/

/-- C2 (counterexample): in the spec's example scenario (integer tag over a
writable cell holding 10, alias 1, no prior reads; `write(20)` then
`read(t=100)`), the first read does return changed and `currentValue`
becomes 20, but `previousValue` is the initial NULL snapshot — it does NOT
equal 10 as the claim states, because the first read shifts the
never-read (null) `currentValue` into `previousValue`. -/
theorem c2_counterexample :
    c2read1.1 = true ∧
    (c2read1.2.store 1).currentValue.value = Value.vInt32 20 ∧
    (c2read1.2.store 1).previousValue.isNull = true ∧
    ¬((c2read1.2.store 1).previousValue.isNull = false ∧
      (c2read1.2.store 1).previousValue.value = Value.vInt32 10) := by
  refine ⟨by decide, by decide, by decide, ?_⟩
  rintro ⟨h, -⟩
  exact absurd h (by decide)

/-- C2 (amended): in the example scenario, `read(t=100)` returns
changed=true with `currentValue` = 20 (non-null, timestamp 100) and
`previousValue` the initial null snapshot (isNull, timestamp 0) — not 10 —
and `read(t=200)` with no intervening write returns changed=false with
`currentValue` still 20. -/
theorem c2_amended_scenario :
    c2read1.1 = true ∧
    (c2read1.2.store 1).currentValue.value = Value.vInt32 20 ∧
    (c2read1.2.store 1).currentValue.isNull = false ∧
    (c2read1.2.store 1).currentValue.timestamp = 100 ∧
    (c2read1.2.store 1).previousValue.isNull = true ∧
    (c2read1.2.store 1).previousValue.timestamp = 0 ∧
    c2read2.1 = false ∧
    (c2read2.2.store 1).currentValue.value = Value.vInt32 20 ∧
    (c2read2.2.store 1).currentValue.isNull = false := by
  refine ⟨?_, ?_, ?_, ?_, ?_, ?_, ?_, ?_, ?_⟩ <;> decide

/-- C3 (counterexample): in the reachable registry `c3s` (tag 1 inserted
first, then tag 2, so tag 2 is at the head of the list), positional lookup
at index 0 returns tag 1 — the OLDEST tag — while the head of the list is
tag 2: the flat array does not mirror the list in list order, and
`getTagByIdx 0` is not the most recently inserted tag. -/
theorem c3_counterexample :
    Reachable c3s ∧ getTagsCount c3s = 2 ∧ c3s.head[0]? = some 2 ∧
    getTagByIdx c3s 0 = some 1 ∧ getTagByIdx c3s 0 ≠ c3s.head[0]? := by
  refine ⟨c3s_reachable, by decide, by decide, by decide, by decide⟩

/-- C3 (amended): in every reachable registry state the flat index array
mirrors the linked list in REVERSE list order: for `i < getTagsCount()`,
`getTagByIdx i` is the `i`-th tag counting from the TAIL of the list
(insertion order, oldest first); in particular `getTagByIdx 0` is the least
recently inserted live tag. -/
theorem c3_amended (s : State) (h : Reachable s) :
    (∀ i, i < getTagsCount s → getTagByIdx s i = s.head.reverse[i]?) ∧
    (0 < getTagsCount s → getTagByIdx s 0 = s.head.getLast?) := by
  have hw := reachable_wf s h
  have hmain : ∀ i, i < getTagsCount s → getTagByIdx s i = s.head.reverse[i]? := by
    intro i hi
    unfold getTagByIdx
    unfold getTagsCount at hi
    rw [if_pos hi, hw.array_eq]
    have hne : s.head ≠ [] := by
      intro he
      rw [hw.count_eq, he] at hi
      simp at hi
    rw [if_neg hne]
    rfl
  refine ⟨hmain, fun h0 => ?_⟩
  rw [hmain 0 h0, ← List.head?_eq_getElem?, List.head?_reverse]

theorem c3_amended_witness :
    getTagByIdx c3s 1 = c3s.head.reverse[1]? ∧ getTagByIdx c3s 0 = c3s.head.getLast? :=
  ⟨(c3_amended c3s c3s_reachable).1 1 (by decide),
   (c3_amended c3s c3s_reachable).2 (by decide)⟩

/-- C4 (counterexample): a registry with one fresh readable tag whose alias
is -1000.  Reading that tag (the tag readAllBasicTags visits at index 0,
with the not-yet-injected timestamp source's value 0) reports a change, yet
`readAllBasicTags` returns false: the result is NOT "true iff at least one
tag's read reported a change, regardless of which tag", because changes of
tags with alias ≤ -1000 are ignored. -/
theorem c4_counterexample :
    (readBasicTag trivialUB c4s (getTagByIdx c4s 0) (_timestamp c4s)).1 = true ∧
    (c4s.store 1).alias_ = -1000 ∧
    (readAllBasicTags trivialUB c4s).1 = false := by
  refine ⟨by decide, by decide, by decide⟩

/-- C4 (amended): for every registry state, `readAllBasicTags` reads the
tags at indices `0 .. getTagsCount()-1`, passing each the injected
timestamp source's value, and returns true if and only if at least one of
those reads reported a change on a tag whose alias is above -1000 (the
loop ignores changes of tags with alias ≤ -1000). -/
theorem c4_amended (ub : UBModel) (s : State) :
    ((readAllBasicTags ub s).1 = true ↔
      ∃ i, ∃ hi : i < getTagsCount s, ∃ tid, getTagByIdx s i = some tid ∧
        (readBasicTag ub (readAllUpTo ub s i) (some tid) (_timestamp s)).1 = true ∧
        (((readBasicTag ub (readAllUpTo ub s i) (some tid) (_timestamp s)).2).store tid).alias_
          > -1000) := by
  rw [readAllBasicTags_fst_iff]
  constructor
  · rintro ⟨i, hi, hs⟩
    rcases (readAllStep_fst_iff ub _ i).1 hs with ⟨tid, hg, hr, ha⟩
    rw [readAllUpTo_getTagByIdx] at hg
    rw [readAllUpTo_timestamp] at hr ha
    exact ⟨i, hi, tid, hg, hr, ha⟩
  · rintro ⟨i, hi, tid, hg, hr, ha⟩
    refine ⟨i, hi, (readAllStep_fst_iff ub _ i).2 ⟨tid, ?_, ?_, ?_⟩⟩
    · rw [readAllUpTo_getTagByIdx]; exact hg
    · rw [readAllUpTo_timestamp]; exact hr
    · rw [readAllUpTo_timestamp]; exact ha

theorem c4_amended_witness :
    ((readAllBasicTags trivialUB c4s).1 = true ↔
      ∃ i, ∃ hi : i < getTagsCount c4s, ∃ tid, getTagByIdx c4s i = some tid ∧
        (readBasicTag trivialUB (readAllUpTo trivialUB c4s i) (some tid) (_timestamp c4s)).1
          = true ∧
        (((readBasicTag trivialUB (readAllUpTo trivialUB c4s i) (some tid)
          (_timestamp c4s)).2).store tid).alias_ > -1000) :=
  c4_amended trivialUB c4s

/-- C5 (confirmed): a tag freshly created by `createTag` (and hence by any
convenience constructor, which merely fixes the datatype argument) carries
the never-read sentinel `currentValue.timestamp = 0`, so its very first
`readBasicTag` returns true — whatever the state, the backing memory, the
timestamp, and even if the tag's comparison function is first replaced by
an arbitrary one. -/
theorem c5_first_read_changes (ub : UBModel) (s : State) (tid : Nat) (name : String)
    (addr : Option Nat) (a : Int) (dt : SparkplugDataType) (lw rw : Bool) (mlen : Nat)
    (t : Nat) :
    (readBasicTag ub (createTag s tid name addr a dt lw rw mlen).1 (some tid) t).1 = true ∧
    ∀ cf, (readBasicTag ub
        (setTag (createTag s tid name addr a dt lw rw mlen).1 tid
          { (createTag s tid name addr a dt lw rw mlen).1.store tid with compareFunc := cf })
        (some tid) t).1 = true := by
  constructor
  · rw [readBasicTag_fst]
    refine readBasicTagAux_fst_of_ts0 ub _ _ t ?_
    rw [createTag_store_self]
    exact _init_tag_ts s name addr a dt lw rw mlen
  · intro cf
    rw [readBasicTag_fst]
    refine readBasicTagAux_fst_of_ts0 ub _ _ t ?_
    rw [setTag_store_self]
    show ((createTag s tid name addr a dt lw rw mlen).1.store tid).currentValue.timestamp = 0
    rw [createTag_store_self]
    exact _init_tag_ts s name addr a dt lw rw mlen

/-- C6 (confirmed): a write against a tag with no `value_address`, or with
both writability flags clear, or whose registered `validateWrite` callback
rejects the candidate, returns false and leaves the entire state — the
caller's memory cells and every tag's values and timestamps — exactly
unchanged. -/
theorem c6_failed_write_no_effect (ub : UBModel) (s : State) (tid : Nat) (nv : BasicValue)
    (h : (s.store tid).value_address = none ∨
      ((s.store tid).local_writable = false ∧ (s.store tid).remote_writable = false) ∨
      ∃ f, (s.store tid).validateWrite = some f ∧ f nv = false) :
    writeBasicTag ub s tid nv = (false, s) := by
  unfold writeBasicTag
  dsimp only
  rcases h with h | ⟨hl, hr⟩ | ⟨f, hf, hv⟩
  · rw [h]
  · cases haddr : (s.store tid).value_address with
    | none => rfl
    | some addr =>
      dsimp only
      rw [if_pos (by rw [hl, hr]; rfl)]
  · cases haddr : (s.store tid).value_address with
    | none => rfl
    | some addr =>
      dsimp only
      by_cases hw : (!(s.store tid).local_writable && !(s.store tid).remote_writable) = true
      · rw [if_pos hw]
      · rw [if_neg hw, hf]
        dsimp only
        rw [hv]
        rfl

theorem c6_failed_write_witness : writeBasicTag trivialUB c6s 1 c6v = (false, c6s) :=
  c6_failed_write_no_effect trivialUB c6s 1 c6v (Or.inr (Or.inl (by refine ⟨?_, ?_⟩ <;> decide)))

/-- C7 (confirmed): for a string-typed tag (String/Text/UUID) with
`buffer_value_max_len ≥ 1` whose cell is a char array with room for the
bound plus terminator, writing a non-null candidate string strictly longer
than the bound succeeds and leaves the destination holding exactly the
first `buffer_value_max_len` source bytes, a NUL at index
`buffer_value_max_len`, and the rest of the array untouched: as a C string
the destination is exactly the first `buffer_value_max_len` bytes, and the
array's byte count is unchanged — never more. -/
theorem c7_bounded_string_write (ub : UBModel) (s : State) (tid addr : Nat)
    (nv : BasicValue) (old src : List Nat)
    (hdt : (s.store tid).datatype = spString ∨ (s.store tid).datatype = spText ∨
      (s.store tid).datatype = spUUID)
    (hmax : 1 ≤ (s.store tid).buffer_value_max_len)
    (haddr : (s.store tid).value_address = some addr)
    (hcell : s.mem addr = Cell.chars old)
    (hold : (s.store tid).buffer_value_max_len + 1 ≤ old.length)
    (hwrt : (s.store tid).local_writable = true ∨ (s.store tid).remote_writable = true)
    (hvw : ∀ f, (s.store tid).validateWrite = some f → f nv = true)
    (hnull : nv.isNull = false)
    (hsv : nv.value = Value.vString (some src))
    (hlong : (s.store tid).buffer_value_max_len < cstrlen src) :
    (writeBasicTag ub s tid nv).1 = true ∧
    (writeBasicTag ub s tid nv).2.mem addr =
      Cell.chars (src.take ((s.store tid).buffer_value_max_len) ++ [0] ++
        old.drop ((s.store tid).buffer_value_max_len + 1)) ∧
    cstr (src.take ((s.store tid).buffer_value_max_len) ++ [0] ++
        old.drop ((s.store tid).buffer_value_max_len + 1)) =
      src.take ((s.store tid).buffer_value_max_len) ∧
    (src.take ((s.store tid).buffer_value_max_len) ++ [0] ++
        old.drop ((s.store tid).buffer_value_max_len + 1)).length = old.length := by
  have hhead : ((src.headD 0 : Nat) == 0) = false := by
    simp only [beq_eq_false_iff_ne]
    exact headD_ne_zero_of_cstrlen_pos src (lt_of_le_of_lt (Nat.zero_le _) hlong)
  have hcopy : _copy_string_value (some src) (some old) ((s.store tid).buffer_value_max_len) =
      (true, some (src.take ((s.store tid).buffer_value_max_len) ++ [0] ++
        old.drop ((s.store tid).buffer_value_max_len + 1))) := by
    unfold _copy_string_value
    dsimp only
    rw [if_neg (by omega), if_neg (by rw [hhead]; exact Bool.false_ne_true)]
    rw [min_eq_right (le_of_lt hlong)]
  have hdisp : writeDispatch ub (s.store tid) (s.mem addr) nv =
      Cell.chars (src.take ((s.store tid).buffer_value_max_len) ++ [0] ++
        old.drop ((s.store tid).buffer_value_max_len + 1)) := by
    unfold writeDispatch
    have hsv' : nv.value.stringVal = some src := by rw [hsv]; rfl
    have hcond : (nv.isNull || nv.value.stringVal.isNone ||
        ((nv.value.stringVal.getD []).headD 0 == 0)) = false := by
      rw [hnull, hsv']
      simp only [Option.isNone_some, Option.getD_some, Bool.false_or]
      exact hhead
    rcases hdt with h | h | h <;>
      rw [h] <;> dsimp only <;>
      rw [hcell] <;> dsimp only <;>
      rw [if_neg (by rw [hcond]; exact Bool.false_ne_true)] <;>
      rw [hsv', hcopy] <;> rfl
  have hmain : writeBasicTag ub s tid nv =
      (true, setMem s addr (writeDispatch ub (s.store tid) (s.mem addr) nv)) := by
    unfold writeBasicTag
    dsimp only
    rw [haddr]
    dsimp only
    rw [if_neg (by rcases hwrt with h | h <;> rw [h] <;> simp)]
    cases hvwc : (s.store tid).validateWrite with
    | none => rfl
    | some f =>
      dsimp only
      rw [hvw f hvwc]
      rfl
  refine ⟨by rw [hmain], ?_, ?_, ?_⟩
  · rw [hmain]
    show (setMem s addr _).mem addr = _
    unfold setMem
    simp [hdisp]
  · have hA : ∀ b ∈ src.take ((s.store tid).buffer_value_max_len), b ≠ 0 :=
      mem_take_cstrlen_ne_zero src _ (le_of_lt hlong)
    have := cstr_append_zero (src.take ((s.store tid).buffer_value_max_len))
      (old.drop ((s.store tid).buffer_value_max_len + 1)) hA
    simpa [List.append_assoc] using this
  · have hsrc : (s.store tid).buffer_value_max_len ≤ src.length :=
      le_trans (le_of_lt hlong) (cstrlen_le_length src)
    simp only [List.length_append, List.length_take, List.length_drop,
      List.length_cons, List.length_nil]
    omega

theorem c7_bounded_string_write_witness :
    (writeBasicTag trivialUB c7s 1 c7v).1 = true ∧
    (writeBasicTag trivialUB c7s 1 c7v).2.mem 0 = Cell.chars [65, 66, 0, 7, 7] := by
  have hvw : ∀ f, (c7s.store 1).validateWrite = some f → f c7v = true := by
    intro f hf
    rw [show (c7s.store 1).validateWrite = none from rfl] at hf
    exact Option.noConfusion hf
  have h := c7_bounded_string_write trivialUB c7s 1 0 c7v [7, 7, 7, 7, 7] [65, 66, 67, 0]
    (by decide) (by decide) (by decide) (by decide) (by decide) (by decide) hvw
    (by decide) (by decide) (by decide)
  refine ⟨h.1, ?_⟩
  rw [h.2.1]
  decide

/-- C8 (counterexample): a registry holding a single tag with alias -5.
`getNextAlias()` returns 1, not max(existing aliases) + 1 = -4: the scan
starts its running maximum at 0, so negative aliases never influence it. -/
theorem c8_counterexample :
    c8s.head = [1] ∧ (c8s.store 1).alias_ = -5 ∧ getNextAlias c8s = 1 ∧
    getNextAlias c8s ≠ (-5 : Int) + 1 := by
  refine ⟨by decide, by decide, by decide, by decide⟩

/-- C8 (amended): `getNextAlias` returns 1 on an empty registry and
otherwise one more than the maximum of 0 and all live aliases (so for
all-negative aliases it returns 1, not max+1); an alias is invalid exactly
when some live tag holds it; and `createTag` keeps a requested alias that
no live tag holds while replacing a colliding one with `getNextAlias()`
evaluated against the registry before insertion. -/
theorem c8_amended :
    (∀ s : State, s.head = [] → getNextAlias s = 1) ∧
    (∀ s : State, s.head ≠ [] →
      getNextAlias s = (s.head.map (fun tid => (s.store tid).alias_)).foldl max 0 + 1) ∧
    (∀ (s : State) (a : Int),
      aliasValid s a = false ↔ ∃ tid ∈ s.head, (s.store tid).alias_ = a) ∧
    (∀ (s : State) (tid : Nat) (name : String) (addr : Option Nat) (a : Int)
      (dt : SparkplugDataType) (lw rw : Bool) (mlen : Nat),
      (aliasValid s a = true →
        (((createTag s tid name addr a dt lw rw mlen).1).store tid).alias_ = a) ∧
      (aliasValid s a = false →
        (((createTag s tid name addr a dt lw rw mlen).1).store tid).alias_ = getNextAlias s)) := by
  refine ⟨?_, ?_, ?_, ?_⟩
  · intro s h
    unfold getNextAlias
    rw [if_pos h]
  · intro s h
    exact getNextAlias_eq s h
  · intro s a
    constructor
    · intro hv
      by_contra hne
      push_neg at hne
      have : aliasValid s a = true := (aliasValid_iff s a).2 hne
      rw [this] at hv
      exact Bool.noConfusion hv
    · rintro ⟨tid, htid, he⟩
      by_contra hne
      have : aliasValid s a = true := by
        cases hvb : aliasValid s a with
        | false => exact absurd hvb hne
        | true => rfl
      exact (aliasValid_iff s a).1 this tid htid he
  · intro s tid name addr a dt lw rw mlen
    constructor <;> intro hv <;> rw [createTag_store_self, _init_tag_alias]
    · rw [if_pos hv]
    · rw [if_neg (by rw [hv]; exact Bool.false_ne_true)]

theorem c8_amended_witness :
    getNextAlias c8s = (c8s.head.map (fun tid => (c8s.store tid).alias_)).foldl max 0 + 1 ∧
    aliasValid c8s (-5) = false :=
  ⟨c8_amended.2.1 c8s (by decide),
   (c8_amended.2.2.1 c8s (-5)).2 ⟨1, by decide, by decide⟩⟩

/-- C9 (confirmed): deleting a live tag out of a reachable registry
succeeds; the count drops by one; an identity search and an alias lookup
for the deleted tag both report not-found; and the flat index array becomes
the old array with exactly that tag removed, so positions 0..N-2 hold the
remaining N-1 tags in their original relative order. -/
theorem c9_deletion (s : State) (tid : Nat) (h : Reachable s) (hm : tid ∈ s.head) :
    (deleteTag s tid).1 = true ∧
    getTagsCount (deleteTag s tid).2 = getTagsCount s - 1 ∧
    findTag (deleteTag s tid).2 (fun j _ => j == tid) = none ∧
    getTagByAlias (deleteTag s tid).2 ((s.store tid).alias_) = none ∧
    (deleteTag s tid).2.tagsArray.getD [] = (s.tagsArray.getD []).erase tid := by
  have hw := reachable_wf s h
  have hne : s.head ≠ [] := by
    intro he
    rw [he] at hm
    exact List.not_mem_nil tid hm
  unfold deleteTag _remove_tag_from_list
  rw [if_pos hm]
  dsimp only
  refine ⟨rfl, ?_, ?_, ?_, ?_⟩
  · unfold getTagsCount
    rw [_update_tags_array_nodeCount]
  · unfold findTag
    rw [_update_tags_array_head]
    dsimp only
    rw [List.find?_eq_none]
    intro j hj
    have hj' := (hw.nodup.mem_erase_iff).1 hj
    simpa using hj'.1
  · unfold getTagByAlias findTag _tag_has_alias
    rw [_update_tags_array_head, _update_tags_array_store]
    dsimp only
    rw [List.find?_eq_none]
    intro j hj
    obtain ⟨hjne, hjmem⟩ := (hw.nodup.mem_erase_iff).1 hj
    simp only [beq_iff_eq]
    intro he
    exact hjne (List.inj_on_of_nodup_map hw.alias_nodup hjmem hm he)
  · rw [hw.array_eq, if_neg hne]
    unfold _update_tags_array
    dsimp only
    by_cases hz : s.nodeCount - 1 = 0
    · rw [if_pos hz]
      have hlen1 : s.head.length = 1 := by
        have hc := hw.count_eq
        have hp : 0 < s.head.length := List.length_pos.2 hne
        omega
      obtain ⟨x, hx⟩ := List.length_eq_one.1 hlen1
      rw [hx] at hm
      have hxe : tid = x := by simpa using hm
      subst hxe
      rw [hx]
      simp
    · rw [if_neg hz]
      rw [reverse_erase_of_nodup s.head hw.nodup tid]
      rfl

theorem c9_deletion_witness :
    (deleteTag c9s 1).1 = true ∧
    getTagsCount (deleteTag c9s 1).2 = 1 ∧
    getTagByAlias (deleteTag c9s 1).2 1 = none ∧
    (deleteTag c9s 1).2.tagsArray.getD [] = [2] := by
  have h := c9_deletion c9s 1 c9s_reachable (by decide)
  refine ⟨h.1, ?_, ?_, ?_⟩
  · rw [h.2.1]
    decide
  · exact h.2.2.2.1
  · rw [h.2.2.2.2]
    decide

/-- C10 (counterexample): a registry with one fresh readable tag of alias
-2000 and no timestamp function injected.  The read that
`readAllBasicTags` performs (index 0, timestamp 0) reports a change, yet
`readAllBasicTags` returns false — it does NOT "report changes on every
invocation", because changes of tags with alias ≤ -1000 are ignored. -/
theorem c10_counterexample :
    c10s.tsFn = none ∧
    (readBasicTag trivialUB c10s (getTagByIdx c10s 0) (_timestamp c10s)).1 = true ∧
    (readAllBasicTags trivialUB c10s).1 = false := by
  refine ⟨by decide, by decide, by decide⟩

/-- C10 (amended): a read at timestamp 0 never establishes a
change-detection baseline.  (a) In a reachable state, after a
`readBasicTag(tag, 0)` call on a live tag that reports changed, the tag's
`currentValue.timestamp` still holds the first-read sentinel 0, so the
immediately following read — at any timestamp — again reports changed.
(b) `readAllBasicTags` invoked with no timestamp function injected passes
timestamp 0 to every tag; in a reachable state whose live tags all carry
the sentinel and at least one of which has alias above -1000 (the loop
ignores the others), it reports a change, and it leaves the timestamp
function, the list, and every live tag's sentinel as they were — so every
subsequent invocation reports a change as well, no matter how often the
backing memory stays the same. -/
theorem c10_amended :
    (∀ (ub ub2 : UBModel) (s : State) (tid t : Nat), Reachable s → tid ∈ s.head →
      (readBasicTag ub s (some tid) 0).1 = true →
      ((readBasicTag ub s (some tid) 0).2.store tid).currentValue.timestamp = 0 ∧
      (readBasicTag ub2 (readBasicTag ub s (some tid) 0).2 (some tid) t).1 = true) ∧
    (∀ (ub : UBModel) (s : State), Reachable s → s.tsFn = none →
      (∀ tid ∈ s.head, (s.store tid).currentValue.timestamp = 0) →
      (∃ tid ∈ s.head, (s.store tid).alias_ > -1000) →
      (readAllBasicTags ub s).1 = true ∧
      (readAllBasicTags ub s).2.tsFn = none ∧
      (readAllBasicTags ub s).2.head = s.head ∧
      ∀ tid ∈ s.head, ((readAllBasicTags ub s).2.store tid).currentValue.timestamp = 0) := by
  constructor
  · intro ub ub2 s tid t h hm hr
    have hw := reachable_wf s h
    cases haddr : (s.store tid).value_address with
    | none =>
      have hts : ((readBasicTag ub s (some tid) 0).2.store tid).currentValue.timestamp = 0 := by
        rw [readBasicTag_store_eq, readBasicTagAux_none_currentValue ub _ _ _ haddr]
        exact hw.null_addr_ts tid hm haddr
      refine ⟨hts, ?_⟩
      rw [readBasicTag_fst]
      apply readBasicTagAux_none_fst
      rw [readBasicTag_store_eq, readBasicTagAux_value_address]
      exact haddr
    | some addr =>
      have hts : ((readBasicTag ub s (some tid) 0).2.store tid).currentValue.timestamp = 0 := by
        rw [readBasicTag_store_eq]
        exact readBasicTagAux_fst_true_ts ub (s.store tid) s.mem 0 addr haddr hr
      refine ⟨hts, ?_⟩
      rw [readBasicTag_fst]
      exact readBasicTagAux_fst_of_ts0 ub2 _ _ t hts
  · rintro ub s h htsF hts0 ⟨tid0, htid0, halias⟩
    have hw := reachable_wf s h
    have hne : s.head ≠ [] := by
      intro he
      rw [he] at htid0
      exact List.not_mem_nil tid0 htid0
    have harr : s.tagsArray = some s.head.reverse := by
      rw [hw.array_eq, if_neg hne]
    obtain ⟨i, hi, hget⟩ := List.mem_iff_getElem.1 (List.mem_reverse.2 htid0)
    have hi' : i < getTagsCount s := by
      unfold getTagsCount
      rw [hw.count_eq]
      simpa using hi
    have hgetIdx : getTagByIdx s i = some tid0 := by
      unfold getTagByIdx
      rw [if_pos (by unfold getTagsCount at hi'; exact hi'), harr]
      rw [show (some s.head.reverse).getD [] = s.head.reverse from rfl]
      rw [List.getElem?_eq_getElem hi, hget]
    have ht0 : _timestamp (readAllUpTo ub s i) = 0 := by
      rw [readAllUpTo_timestamp]
      unfold _timestamp
      rw [htsF]
    have hres : (readAllBasicTags ub s).1 = true := by
      rw [readAllBasicTags_fst_iff]
      refine ⟨i, hi', (readAllStep_fst_iff ub _ i).2 ⟨tid0, ?_, ?_, ?_⟩⟩
      · rw [readAllUpTo_getTagByIdx]
        exact hgetIdx
      · rw [ht0, readBasicTag_fst]
        apply readBasicTagAux_fst_of_ts0
        exact readAllGo_keeps_ts0 ub (List.range i) s false htsF hts0 tid0 htid0
      · rw [ht0, readBasicTag_store_alias, readAllUpTo_store_alias]
        exact halias
    refine ⟨hres, ?_, ?_, ?_⟩
    · unfold readAllBasicTags
      rw [readAllGo_snd_tsFn]
      exact htsF
    · unfold readAllBasicTags
      exact readAllGo_snd_head ub _ s false
    · intro tid htid
      unfold readAllBasicTags
      exact readAllGo_keeps_ts0 ub _ s false htsF hts0 tid htid

theorem c10_amended_witness :
    (readAllBasicTags trivialUB c10ws).1 = true ∧
    ∀ tid ∈ c10ws.head,
      ((readAllBasicTags trivialUB c10ws).2.store tid).currentValue.timestamp = 0 :=
  have h := c10_amended.2 trivialUB c10ws c10ws_reachable (by decide) (by decide)
    ⟨1, by decide, by decide⟩
  ⟨h.1, h.2.2.2⟩

end BasicTag
